import Mathlib

/-!
Shallow embedding of the hybrid retrieval and multi-step reasoning pipeline of
the KnowledgeBase backend (services/neo4jService, services/graphRagService,
services/AdvancedRAGService), together with proofs settling the frozen claims.

JS numbers are modelled as exact rationals (and reals where `Math.sqrt`
appears); JS 32-bit integer operations are modelled on `Int` with explicit
reduction mod 2^32.  JS strings are modelled as `List Char` (faithful for
code points in the basic multilingual plane).
-/

set_option maxRecDepth 4000

namespace KB

/-! ### JS numeric primitives -/

/-- JS ToUint32: reduce an integer into [0, 2^32). -/
def toUint32 (n : ℤ) : ℤ := n % (2 ^ 32)

/-- JS ToInt32: reduce an integer into [-2^31, 2^31). -/
def toInt32 (n : ℤ) : ℤ := (n + 2 ^ 31) % (2 ^ 32) - 2 ^ 31

/-- JS `x << 5` (operand converted to int32, result int32). -/
def jsShl5 (n : ℤ) : ℤ := toInt32 (toInt32 n * 32)

/-- JS `x >>> k` (unsigned right shift). -/
def jsShrU (n : ℤ) (k : ℕ) : ℤ := toUint32 n / (2 ^ k)

/-- JS `x ^ y` (bitwise xor on 32-bit operands, result int32). -/
def jsXor (a b : ℤ) : ℤ :=
  toInt32 (Int.ofNat (Nat.xor (toUint32 a).toNat (toUint32 b).toNat))

/-- JS `Math.imul` (32-bit multiplication). -/
def jsImul (a b : ℤ) : ℤ := toInt32 (toInt32 a * toInt32 b)

/-- JS `Math.round` on an exact rational: floor(x + 1/2). -/
def jsRound (q : ℚ) : ℤ := Int.floor (q + 1 / 2)

/-- JS `a || b` for an optional number `a`: `undefined` and `0` are falsy. -/
def jsOrQ (a : Option ℚ) (b : ℚ) : ℚ :=
  match a with
  | some x => if x ≠ 0 then x else b
  | none => b

/-- JS `a || b` for an optional string `a`: `undefined` and `""` are falsy. -/
def jsOrS (a : Option String) (b : String) : String :=
  match a with
  | some x => if x ≠ "" then x else b
  | none => b

/-! ### JS string primitives (over `List Char`) -/

/-- JS `String.prototype.trim`: drop leading and trailing whitespace. -/
def jsTrim (s : List Char) : List Char :=
  ((s.dropWhile Char.isWhitespace).reverse.dropWhile Char.isWhitespace).reverse

/-- JS `s.split(c)` for a single-character separator: segments between
occurrences of `c`; empty segments are kept (`"".split(c) = [""]`). -/
def splitOnChar (sep : Char) : List Char → List (List Char)
  | [] => [[]]
  | c :: rest =>
    let r := splitOnChar sep rest
    if c = sep then [] :: r
    else
      match r with
      | [] => [[c]]
      | w :: ws => (c :: w) :: ws

/-- Collapse each maximal run of whitespace to a single space
(the flag records whether we are inside a run already handled). -/
def collapseWsAux : Bool → List Char → List Char
  | _, [] => []
  | inRun, c :: rest =>
    if c.isWhitespace then
      if inRun then collapseWsAux true rest
      else ' ' :: collapseWsAux true rest
    else c :: collapseWsAux false rest

def collapseWs (s : List Char) : List Char := collapseWsAux false s

/-- JS `s.split(/\s+/)`: split on maximal whitespace runs; a leading or a
trailing run contributes an empty segment, exactly as in JS. -/
def splitWs (s : List Char) : List (List Char) := splitOnChar ' ' (collapseWs s)

/-- JS `haystack.includes(needle)` (contiguous substring test). -/
def jsIncludes (haystack needle : List Char) : Bool :=
  match haystack with
  | [] => needle.isEmpty
  | _ :: t => needle.isPrefixOf haystack || jsIncludes t needle

/-- Join a list of words with single spaces (JS `arr.join(' ')`). -/
def joinSpace : List (List Char) → List Char
  | [] => []
  | [w] => w
  | w :: ws => w ++ ' ' :: joinSpace ws

/-! ### enhancedHash (neo4jService)

```js
enhancedHash(str) {
  let hash = 5381;
  for (let i = 0; i < str.length; i++) {
    hash = ((hash << 5) + hash) + str.charCodeAt(i);
  }
  hash = hash ^ (hash >>> 16);
  hash = Math.imul(hash, 0x85ebca6b);
  hash = hash ^ (hash >>> 13);
  hash = Math.imul(hash, 0xc2b2ae35);
  hash = hash ^ (hash >>> 16);
  return Math.abs(hash);
}
```
The loop accumulator is a JS float64; additions are exact while the value
stays below 2^53, which the model takes as exact integer arithmetic. -/

def djb2Loop : ℤ → List Char → ℤ
  | h, [] => h
  | h, c :: cs => djb2Loop (jsShl5 h + h + (c.toNat : ℤ)) cs

def enhancedHashI (s : List Char) : ℤ :=
  let h0 := djb2Loop 5381 s
  let h1 := jsXor h0 (jsShrU h0 16)
  let h2 := jsImul h1 0x85ebca6b
  let h3 := jsXor h2 (jsShrU h2 13)
  let h4 := jsImul h3 0xc2b2ae35
  jsXor h4 (jsShrU h4 16)

/-- `Math.abs` of the 32-bit hash value: a natural number. -/
def enhancedHash (s : List Char) : ℕ := (enhancedHashI s).natAbs

/-! ### Text cleaning in generateEnhancedEmbedding

```js
const cleanText = text.toLowerCase()
    .replace(/[^\\w\\s]/g, ' ')
    .replace(/\\s+/g, ' ')
    .trim();
const words = cleanText.split(' ').filter(w => w.length > 2);
```
Both regexes have doubled backslashes in the source, so inside the regex
literal they denote an escaped backslash followed by a literal letter: the
first character class keeps only the characters backslash, `w` and `s`
(replacing every other character with a space), and the second pattern
matches a literal backslash followed by one or more literal `s`. -/

/-- Characters NOT matched by the class `[^\\w\\s]`. -/
def keptChar (c : Char) : Bool := c = '\\' || c = 'w' || c = 's'

def replaceNonKept (s : List Char) : List Char :=
  s.map (fun c => if keptChar c then c else ' ')

/-- Global replacement of `/\\s+/` (a backslash followed by a run of `s`)
by a single space; the flag records that we are consuming a matched run. -/
def replBSAux : Bool → List Char → List Char
  | _, [] => []
  | true, 's' :: rest => replBSAux true rest
  | _, '\\' :: 's' :: rest2 => ' ' :: replBSAux true rest2
  | _, c :: rest => c :: replBSAux false rest

def replBS (s : List Char) : List Char := replBSAux false s

def jsToLower (s : List Char) : List Char := s.map Char.toLower

/-- The token list `words` computed by `generateEnhancedEmbedding`. -/
def embedWords (text : List Char) : List (List Char) :=
  let cleanText := jsTrim (replBS (replaceNonKept (jsToLower text)))
  (splitOnChar ' ' cleanText).filter (fun w => 2 < w.length)

/-! ### Word frequency map (JS `Map`, insertion order) -/

def dedupKeysAux (acc : List (List Char)) : List (List Char) → List (List Char)
  | [] => acc
  | w :: ws => if w ∈ acc then dedupKeysAux acc ws else dedupKeysAux (acc ++ [w]) ws

/-- Distinct words in first-occurrence order (JS `Map` iteration order). -/
def dedupKeys (l : List (List Char)) : List (List Char) := dedupKeysAux [] l

/-- The `wordFreq` map as an ordered list of (word, frequency) pairs. -/
def wordFreqPairs (wordsL : List (List Char)) : List (List Char × ℕ) :=
  (dedupKeys wordsL).map (fun w => (w, wordsL.count w))

/-- `Math.max(...wordFreq.values())` (only used when some word exists). -/
def maxFreqOf (pairs : List (List Char × ℕ)) : ℕ :=
  pairs.foldl (fun m p => max m p.2) 0

/-! ### JS array writes

`embedding[i] += v` / `embedding[i] = v` on a JS array; an out-of-range
index would grow the array (the proofs show this never happens here). -/

noncomputable def jsSet (l : List ℝ) (i : ℕ) (v : ℝ) : List ℝ :=
  if i < l.length then l.set i v else l ++ List.replicate (i - l.length) 0 ++ [v]

noncomputable def jsAddAt (l : List ℝ) (i : ℕ) (v : ℝ) : List ℝ :=
  jsSet l i (l.getD i 0 + v)

/-! ### The three feature blocks -/

/-- Word-frequency features (dimensions 0-255):
```js
let dimIndex = 0;
for (const [word, freq] of wordFreq.entries()) {
  if (dimIndex >= 256) break;
  const normalizedFreq = freq / maxFreq;
  const hash = this.enhancedHash(word);
  embedding[dimIndex % 256] += normalizedFreq;
  embedding[(hash % 256)] += normalizedFreq * 0.5;
  dimIndex++;
}
``` -/
noncomputable def tfLoop (maxFreq : ℕ) : List (List Char × ℕ) → ℕ → List ℝ → List ℝ
  | [], _, emb => emb
  | (w, f) :: rest, dimIndex, emb =>
    if 256 ≤ dimIndex then emb
    else
      let nf : ℝ := (f : ℝ) / (maxFreq : ℝ)
      let e1 := jsAddAt emb (dimIndex % 256) nf
      let e2 := jsAddAt e1 (enhancedHash w % 256) (nf * (1 / 2))
      tfLoop maxFreq rest (dimIndex + 1) e2

/-- `generateNGrams(words, n)`: the loop `for (i = 0; i <= words.length - n; i++)`
does not run when `words.length < n` (negative JS bound). -/
def generateNGrams (wordsL : List (List Char)) (n : ℕ) : List (List Char) :=
  if wordsL.length < n then []
  else (List.range (wordsL.length - n + 1)).map
    (fun i => joinSpace ((wordsL.drop i).take n))

/-- N-gram features (dimensions 256-383):
```js
[...bigrams, ...trigrams].forEach((ngram, index) => {
  if (index >= 128) return;
  const hash = this.enhancedHash(ngram);
  embedding[256 + (hash % 128)] += 1.0 / Math.sqrt(ngram.split(' ').length);
});
``` -/
noncomputable def ngramLoop : List (List Char) → ℕ → List ℝ → List ℝ
  | [], _, emb => emb
  | g :: rest, index, emb =>
    if 128 ≤ index then ngramLoop rest (index + 1) emb
    else
      let parts := (splitOnChar ' ' g).length
      ngramLoop rest (index + 1)
        (jsAddAt emb (256 + enhancedHash g % 128) (1 / Real.sqrt (parts : ℝ)))

/-- Count of non-overlapping matches of `/[A-Z][a-z]+/g`
(`(text.match(/[A-Z][a-z]+/g) || []).length`). -/
def capWordCount : List Char → ℕ
  | [] => 0
  | [_] => 0
  | c :: c2 :: rest2 =>
    if c.isUpper && c2.isLower then 1 + capWordCount (rest2.dropWhile Char.isLower)
    else capWordCount (c2 :: rest2)
termination_by l => l.length
decreasing_by
  · simp only [List.length_cons]
    have := (List.dropWhile_sublist (l := rest2) Char.isLower).length_le
    omega
  · simp [List.length_cons]

/-- Domain relevance: `keywords.reduce((s, kw) => s + words.filter(w => w.includes(kw)).length, 0) / Math.max(words.length, 1)`. -/
def domainScore (wordsL : List (List Char)) (kws : List (List Char)) : ℚ :=
  ((kws.foldl (fun score kw =>
      score + (wordsL.filter (fun w => jsIncludes w kw)).length) 0 : ℕ) : ℚ)
    / (max wordsL.length 1 : ℕ)

def mlKeywords : List (List Char) :=
  [String.data "learning", String.data "neural", String.data "network",
   String.data "algorithm", String.data "model", String.data "training"]

def nlpKeywords : List (List Char) :=
  [String.data "language", String.data "text", String.data "word",
   String.data "semantic", String.data "parsing", String.data "embedding"]

def cvKeywords : List (List Char) :=
  [String.data "image", String.data "visual", String.data "pixel",
   String.data "detection", String.data "recognition", String.data "convolution"]

def roboticsKeywords : List (List Char) :=
  [String.data "robot", String.data "control", String.data "motion",
   String.data "sensor", String.data "autonomous", String.data "manipulation"]

def theoryKeywords : List (List Char) :=
  [String.data "theorem", String.data "proof", String.data "complexity",
   String.data "analysis", String.data "mathematical", String.data "optimization"]

def methodWords : List (List Char) :=
  [String.data "method", String.data "approach", String.data "technique",
   String.data "framework", String.data "system"]

def resultWords : List (List Char) :=
  [String.data "result", String.data "performance", String.data "accuracy",
   String.data "evaluation", String.data "experiment"]

def noveltyWords : List (List Char) :=
  [String.data "novel", String.data "new", String.data "improved",
   String.data "enhanced", String.data "proposed"]

/-- `extractSemanticFeatures(text, words)`: a 128-entry array; the source
writes the 5 domain scores, 3 text statistics and 3 lexical scores at the
statically known indices 0..10 (each `featureIndex < 128` guard holds). -/
def extractSemanticFeatures (text : List Char) (wordsL : List (List Char)) : List ℚ :=
  let denom : ℚ := (max wordsL.length 1 : ℕ)
  let avgWordLength : ℚ := ((wordsL.map List.length).sum : ℕ) / denom
  let uniqueWordRatio : ℚ := ((dedupKeys wordsL).length : ℕ) / denom
  let capRatio : ℚ := (capWordCount text : ℕ) / denom
  [domainScore wordsL mlKeywords, domainScore wordsL nlpKeywords,
   domainScore wordsL cvKeywords, domainScore wordsL roboticsKeywords,
   domainScore wordsL theoryKeywords,
   avgWordLength / 10, uniqueWordRatio, capRatio,
   domainScore wordsL methodWords, domainScore wordsL resultWords,
   domainScore wordsL noveltyWords] ++ List.replicate 117 0

/-- Semantic features (dimensions 384-511):
```js
semanticFeatures.forEach((value, index) => {
  if (index < 128) { embedding[384 + index] = value; }
});
``` -/
noncomputable def semLoop : List ℚ → ℕ → List ℝ → List ℝ
  | [], _, emb => emb
  | v :: rest, index, emb =>
    if index < 128 then semLoop rest (index + 1) (jsSet emb (384 + index) (v : ℝ))
    else semLoop rest (index + 1) emb

/-- Sum of squares (`embedding.reduce((sum, val) => sum + val * val, 0)`). -/
def l2sq (l : List ℝ) : ℝ := (l.map (fun v => v * v)).sum

/-- The L2 norm of a vector. -/
noncomputable def l2norm (l : List ℝ) : ℝ := Real.sqrt (l2sq l)

/-- `magnitude > 0 ? val / magnitude : 0` applied entrywise. -/
noncomputable def normalizeVec (l : List ℝ) : List ℝ :=
  let magnitude := Real.sqrt (l2sq l)
  l.map (fun v => if 0 < magnitude then v / magnitude else 0)

/-- `generateEnhancedEmbedding(text)` (neo4jService): the two empty guards,
then the three feature-block loops over the 512-entry array, then
normalization. -/
noncomputable def generateEnhancedEmbedding (text : String) : List ℝ :=
  if text.data = [] ∨ jsTrim text.data = [] then List.replicate 512 0
  else if embedWords text.data = [] then List.replicate 512 0
  else
    normalizeVec (semLoop (extractSemanticFeatures text.data (embedWords text.data)) 0
      (ngramLoop (generateNGrams (embedWords text.data) 2 ++
          generateNGrams (embedWords text.data) 3) 0
        (tfLoop (maxFreqOf (wordFreqPairs (embedWords text.data)))
          (wordFreqPairs (embedWords text.data)) 0 (List.replicate 512 0))))

/-- `generateEmbeddings(text)`: delegates to the enhanced local embedding
(the catch-fallback to `generateSimpleEmbedding` is unreachable since the
enhanced generator is total). -/
noncomputable def generateEmbeddings (text : String) : List ℝ :=
  generateEnhancedEmbedding text

/-! ### Search results and combineSearchResults (neo4jService)

Scores returned by the per-strategy queries are optional JS numbers,
modelled as `Option ℚ`. -/

inductive Strategy
  | semantic
  | keyword
  | graph
deriving DecidableEq, Repr

structure SPaper where
  id : String
  title : String := ""
  abstract : String := ""
  similarity : Option ℚ := none
  relevance : Option ℚ := none
  connectionStrength : Option ℚ := none
  citationCount : Option ℚ := none
  url : String := ""
deriving DecidableEq, Repr

/-- An entry of `resultMap` / `combinedResults`: the spread paper plus
`combinedScore` and `sources`. -/
structure Combined where
  paper : SPaper
  combinedScore : ℚ
  sources : List Strategy
deriving DecidableEq, Repr

/-- The strategy weights `{ semantic: 0.5, keyword: 0.3, graph: 0.2 }`
and the bonus `0.1`, idealized as exact rationals. -/
def semWeight : ℚ := 1 / 2
def kwWeight : ℚ := 3 / 10
def grWeight : ℚ := 1 / 5
def bonusWeight : ℚ := 1 / 10

def semScore (p : SPaper) : ℚ := jsOrQ p.similarity 0 * semWeight
def kwScore (p : SPaper) : ℚ := jsOrQ p.relevance 0 * kwWeight
def grScore (p : SPaper) : ℚ := jsOrQ p.connectionStrength 0 * grWeight

/-- The key list of the result map (JS `Map` keys in insertion order). -/
def mkeys (m : List Combined) : List String := m.map (fun e => e.paper.id)

/-- `resultMap.get(pid)`: the entry with the given paper id, if present. -/
def mfind (m : List Combined) (pid : String) : Option Combined :=
  m.find? (fun e => e.paper.id == pid)

/-- In-place mutation of the entry stored under `pid` (JS objects held in a
`Map` are mutated without changing their position). -/
def mupdate (m : List Combined) (pid : String) (g : Combined → Combined) :
    List Combined :=
  m.map (fun e => if e.paper.id == pid then g e else e)

/-- `resultMap.set(paper.id, {...paper, combinedScore: score, sources: ['semantic']})`:
a JS `Map.set` keeps the position of an existing key and appends a new key. -/
def setSemantic (m : List Combined) (p : SPaper) : List Combined :=
  let entry : Combined := ⟨p, semScore p, [Strategy.semantic]⟩
  if (mfind m p.id).isSome then mupdate m p.id (fun _ => entry)
  else m ++ [entry]

/-- The keyword/graph loop body: add to an existing entry (in place) or
insert a fresh entry at the end. -/
def mergeStep (score : SPaper → ℚ) (strat : Strategy)
    (m : List Combined) (p : SPaper) : List Combined :=
  if (mfind m p.id).isSome then
    mupdate m p.id (fun e =>
      { e with combinedScore := e.combinedScore + score p,
               sources := e.sources ++ [strat] })
  else m ++ [⟨p, score p, [strat]⟩]

/-- The final loop `if (paper.sources.length > 1) paper.combinedScore += 0.1 * (paper.sources.length - 1)`. -/
def applyBonus (e : Combined) : Combined :=
  if 1 < e.sources.length then
    { e with combinedScore :=
        e.combinedScore + bonusWeight * ((e.sources.length - 1 : ℕ) : ℚ) }
  else e

/-- Descending insertion sort by a rational score
(`Array.from(resultMap.values()).sort((a, b) => b.combinedScore - a.combinedScore)`). -/
def insertDesc (score : α → ℚ) (x : α) : List α → List α
  | [] => [x]
  | y :: ys => if score y < score x then x :: y :: ys else y :: insertDesc score x ys

def sortByDesc (score : α → ℚ) (l : List α) : List α :=
  l.foldr (insertDesc score) []

/-- The result map after the three `forEach` loops of `combineSearchResults`. -/
def combineMap (semanticResults keywordResults graphResults : List SPaper) :
    List Combined :=
  graphResults.foldl (mergeStep grScore Strategy.graph)
    (keywordResults.foldl (mergeStep kwScore Strategy.keyword)
      (semanticResults.foldl setSemantic []))

/-- `combineSearchResults(semanticResults, keywordResults, graphResults)`:
the three merge loops, the multi-source bonus loop, and the descending sort
of the map values. -/
def combineSearchResults (semanticResults keywordResults graphResults : List SPaper) :
    List Combined :=
  sortByDesc (fun e => e.combinedScore)
    ((combineMap semanticResults keywordResults graphResults).map applyBonus)

/-! ### The three search strategies and hybridSearch (neo4jService)

The Neo4j driver and its query results are external collaborators: the
connection state is explicit and each Cypher query is an oracle that either
returns scored papers or fails (the `catch` branches return `[]`). -/

structure Neo4jState where
  connected : Bool
  driver : Option Unit
  dbSemantic : String → ℕ → Option String → Except Unit (List SPaper)
  dbKeyword : String → ℕ → Option String → Except Unit (List SPaper)
  dbGraph : List String → ℕ → Option String → Except Unit (List SPaper)

/-- `semanticSearch`: `if (!this.connected || !this.driver) return [];`
then the embedding + Cypher query inside try/catch (catch returns `[]`). -/
def semanticSearch (st : Neo4jState) (queryText : String) (limit : ℕ)
    (topic : Option String) : List SPaper :=
  if !st.connected || st.driver = none then []
  else
    match st.dbSemantic queryText limit topic with
    | .ok l => l
    | .error _ => []

/-- `keywordSearch`: same guard and try/catch shape. -/
def keywordSearch (st : Neo4jState) (queryText : String) (limit : ℕ)
    (topic : Option String) : List SPaper :=
  if !st.connected || st.driver = none then []
  else
    match st.dbKeyword queryText limit topic with
    | .ok l => l
    | .error _ => []

/-- `graphSearch`: guard, then seed papers from `keywordSearch(queryText, 3, topic)`;
empty seeds return `[]`; the traversal query is an oracle with catch → `[]`. -/
def graphSearch (st : Neo4jState) (queryText : String) (limit : ℕ)
    (topic : Option String) : List SPaper :=
  if !st.connected || st.driver = none then []
  else
    let seedPapers := keywordSearch st queryText 3 topic
    if seedPapers = [] then []
    else
      match st.dbGraph (seedPapers.map (fun p => p.id)) limit topic with
      | .ok l => l
      | .error _ => []

structure HybridOut where
  semanticResults : List SPaper
  keywordResults : List SPaper
  graphResults : List SPaper
  combinedResults : List Combined
deriving Repr

/-- `hybridSearch(queryText, limit = 10, topic?)`. -/
def hybridSearch (st : Neo4jState) (queryText : String) (limit : ℕ)
    (topic : Option String) : HybridOut :=
  let semanticResults := semanticSearch st queryText limit topic
  let keywordResults := keywordSearch st queryText limit topic
  let graphResults := graphSearch st queryText limit topic
  { semanticResults := semanticResults
    keywordResults := keywordResults
    graphResults := graphResults
    combinedResults :=
      (combineSearchResults semanticResults keywordResults graphResults).take limit }

/-! ### GraphRAGService: question analysis -/

structure Analysis where
  type : String
  entities : List String
  searchTerms : List String
  intent : String
deriving DecidableEq, Repr

/-- The JSON object shape the LLM is asked for; absent fields are `none`. -/
structure AnalysisJson where
  type : Option String := none
  entities : Option (List String) := none
  searchTerms : Option (List String) := none
  intent : Option String := none

def stopWords : List String :=
  ["what", "how", "where", "when", "why", "who", "the", "a", "an", "and",
   "or", "but", "in", "on", "at", "to", "for", "of", "with", "by"]

/-- JS `\w` (ASCII word character). -/
def isWordChar (c : Char) : Bool := c.isAlphanum || c = '_'

/-- `extractSimpleEntities(question)` (graphRagService; here the regex is the
ordinary `/[^\w\s]/g`, single backslashes):
```js
question.toLowerCase().replace(/[^\w\s]/g, ' ').split(/\s+/)
  .filter(word => word.length > 3 && !stopWords.has(word)).slice(0, 5)
``` -/
def extractSimpleEntities (question : String) : List String :=
  let cleaned := (jsToLower question.data).map
    (fun c => if isWordChar c || c.isWhitespace then c else ' ')
  (((splitWs cleaned).map (fun w => String.mk w)).filter
    (fun w => 3 < w.length && !stopWords.contains w)).take 5

def fallbackAnalysis (question : String) : Analysis :=
  { type := "factual"
    entities := extractSimpleEntities question
    searchTerms := [question]
    intent := "research query" }

/-! ### GraphRAGService: content, passages, answers -/

/-- A JS value stored as full content: a string or a binary buffer. -/
inductive JsContent
  | str (s : String)
  | buf
deriving DecidableEq, Repr

/-- JS truthiness of a content value (a buffer object is truthy). -/
def JsContent.truthy : JsContent → Bool
  | .str s => s ≠ ""
  | .buf => true

def JsContent.isStr : JsContent → Bool
  | .str _ => true
  | .buf => false

def JsContent.getStr : JsContent → String
  | .str s => s
  | .buf => ""

/-- Result of `getPaperFullContent(paperId)` (the GraphStore collaborator). -/
structure ContentRec where
  content : JsContent
  contentType : String
  hasFullContent : Bool

/-- A combined search result enriched with full content
(`{...paper, fullContent, contentType, hasFullContent}`). -/
structure PaperC where
  item : Combined
  fullContent : JsContent
  contentType : String
  hasFullContent : Bool
deriving DecidableEq, Repr

structure Passage where
  paperId : String
  paperTitle : String
  content : String
  relevance : ℚ
  source : String
deriving DecidableEq, Repr

/-- The oracle environment for the RAG pipeline: the graph store plus the
outcome of each external call (`groqService.generateCompletion`, content
fetch, JSON parsing of LLM output). -/
structure RagEnv where
  neo4j : Neo4jState
  analysisGen : Except Unit String
  parseAnalysis : String → Option AnalysisJson
  contentOf : String → Except Unit ContentRec
  answerGen : Except Unit String
  reasoningGen : Except Unit String
  followUpGen : Except Unit String

/-- `analyzeQuestion(question)`: LLM classification with JSON parse, falling
back to the local heuristic on generator failure or parse failure. -/
def analyzeQuestion (env : RagEnv) (question : String) : Analysis :=
  match env.analysisGen with
  | .error _ => fallbackAnalysis question
  | .ok response =>
    match env.parseAnalysis response with
    | none => fallbackAnalysis question
    | some a =>
      { type := jsOrS a.type "factual"
        entities := a.entities.getD []
        searchTerms := a.searchTerms.getD [question]
        intent := jsOrS a.intent "general research query" }

/-- `getPapersFullContent(papers)`: per-paper try/catch; on failure the
abstract substitutes and `hasFullContent` is false. -/
def getPapersFullContent (env : RagEnv) (papers : List Combined) : List PaperC :=
  papers.map (fun paper =>
    match env.contentOf paper.paper.id with
    | .ok c =>
      { item := paper, fullContent := c.content, contentType := c.contentType,
        hasFullContent := c.hasFullContent }
    | .error _ =>
      { item := paper, fullContent := .str paper.paper.abstract,
        contentType := "text/plain", hasFullContent := false })

/-- `chunkText(text, maxWords)`: split on whitespace, join 500-word slices,
keep chunks whose trimmed length exceeds 50. -/
def chunkTextGo (maxWords : ℕ) : List (List Char) → List (List Char)
  | [] => []
  | w :: ws =>
    let chunk := joinSpace (w :: ws.take (maxWords - 1))
    (if 50 < (jsTrim chunk).length then [chunk] else []) ++
      chunkTextGo maxWords (ws.drop (maxWords - 1))
termination_by l => l.length
decreasing_by
  simp only [List.length_cons]
  have := (List.drop_sublist (maxWords - 1) ws).length_le
  omega

def chunkText (text : String) (maxWords : ℕ) : List String :=
  (chunkTextGo maxWords (splitWs text.data)).map (fun c => String.mk c)

/-- `calculateTextRelevance(text, question)`: fraction of question terms
(length > 3) appearing in the text, both lowercased. -/
def calculateTextRelevance (text question : String) : ℚ :=
  let questionTerms := (splitWs (jsToLower question.data)).filter
    (fun w => 3 < w.length)
  let textLower := jsToLower text.data
  let matchCount := (questionTerms.filter (fun t => jsIncludes textLower t)).length
  if 0 < questionTerms.length then (matchCount : ℚ) / (questionTerms.length : ℚ)
  else 0

/-- The passages contributed by one paper in `extractRelevantPassages`. -/
def passagesFor (question : String) (p : PaperC) : List Passage :=
  if p.fullContent.truthy && p.hasFullContent then
    if p.contentType = "text/plain" && p.fullContent.isStr then
      (chunkText p.fullContent.getStr 500).filterMap (fun chunk =>
        let relevance := calculateTextRelevance chunk question
        if 3 / 10 < relevance then
          some { paperId := p.item.paper.id, paperTitle := p.item.paper.title,
                 content := chunk, relevance := relevance, source := "full_text" }
        else none)
    else
      [{ paperId := p.item.paper.id, paperTitle := p.item.paper.title,
         content := jsOrS (some p.item.paper.abstract) "Abstract not available",
         relevance := 8 / 10, source := "abstract" }]
  else
    [{ paperId := p.item.paper.id, paperTitle := p.item.paper.title,
       content := jsOrS (some p.item.paper.abstract) "Content not available",
       relevance := 5 / 10, source := "abstract" }]

/-- `extractRelevantPassages(papers, question)`: collect per-paper passages,
sort by relevance descending, keep the top 10. -/
def extractRelevantPassages (papers : List PaperC) (question : String) :
    List Passage :=
  (sortByDesc (fun p => p.relevance) (papers.flatMap (passagesFor question))).take 10

structure AnswerOut where
  answer : String
  reasoning : String
deriving DecidableEq, Repr

def jsTrimS (s : String) : String := String.mk (jsTrim s.data)

def fallbackAnswerText : String :=
  "I found relevant research papers but encountered an error while generating a comprehensive answer. The papers in your database contain information about your question, but I\x27m unable to process it fully at the moment."

/-- `generateAnswer(...)`: two LLM calls inside one try; any failure yields
the fixed fallback answer. -/
def generateAnswer (env : RagEnv) : AnswerOut :=
  match env.answerGen, env.reasoningGen with
  | .ok response, .ok reasoning =>
    { answer := jsTrimS response, reasoning := jsTrimS reasoning }
  | _, _ =>
    { answer := fallbackAnswerText
      reasoning := "Answer generation failed due to LLM service error" }

/-- Strip a leading `/^\d+\.\s*/` enumeration marker. -/
def stripEnum (l : List Char) : List Char :=
  let ds := l.takeWhile Char.isDigit
  if ds.isEmpty then l
  else
    match l.drop ds.length with
    | '.' :: r2 => r2.dropWhile Char.isWhitespace
    | _ => l

/-- Parse of the follow-up LLM response:
`split('\n').filter(line => line.trim().length > 10).map(line => line.replace(/^\d+\.\s*/, '').trim()).slice(0, 3)`. -/
def parseFollowUps (response : String) : List String :=
  ((((splitOnChar '\n' response.data).filter
      (fun line => 10 < (jsTrim line).length)).map
      (fun line => String.mk (jsTrim (stripEnum line)))).take 3)

def fallbackFollowUps : List String :=
  ["Can you tell me more about the methodologies used in these studies?",
   "What are the practical applications of these research findings?",
   "Are there any recent developments in this research area?"]

/-- `generateFollowUpQuestions(...)`: LLM call with parse; catch yields the
three generic questions. -/
def generateFollowUpQuestions (env : RagEnv) : List String :=
  match env.followUpGen with
  | .ok response => parseFollowUps response
  | .error _ => fallbackFollowUps

/-- `p.similarity || p.relevance || p.combinedScore || 0` on an enriched paper. -/
def paperScore (p : PaperC) : ℚ :=
  jsOrQ p.item.paper.similarity
    (jsOrQ p.item.paper.relevance (jsOrQ (some p.item.combinedScore) 0))

/-- `calculateConfidence(papers, passages)` (graphRagService). -/
def calculateConfidence (papers : List PaperC) (passages : List Passage) : ℤ :=
  if papers.length = 0 then 0
  else
    let n : ℚ := (papers.length : ℕ)
    let paperCount : ℚ := min (n / 5) 1 * (3 / 10)
    let averageRelevance : ℚ := ((papers.map paperScore).sum / n) * (4 / 10)
    let passageCount : ℚ := min ((passages.length : ℚ) / 5) 1 * (2 / 10)
    let contentAvailability : ℚ :=
      ((papers.filter (fun p => p.hasFullContent)).length : ℚ) / n * (1 / 10)
    jsRound ((paperCount + averageRelevance + passageCount + contentAvailability) * 100)

structure SourceRef where
  id : String
  title : String
  relevance : Option ℚ
deriving DecidableEq, Repr

def sourceRelevance (p : PaperC) : Option ℚ :=
  some (jsOrQ p.item.paper.similarity
    (jsOrQ p.item.paper.relevance (jsOrQ (some p.item.combinedScore) 0)))

structure RagContext where
  relevantPapers : List PaperC
  searchQuery : String
  searchType : String
  totalPapersFound : ℕ
  confidence : ℤ
deriving DecidableEq, Repr

structure RagResponse where
  answer : String
  sources : List SourceRef
  context : RagContext
  suggestedQuestions : List String
  reasoning : String
deriving DecidableEq, Repr

def apologyText : String :=
  "I apologize, but I encountered an error while searching through the research papers. Please try rephrasing your question or check if the research database is available."

/-- The catch-all fallback response of `askQuestion`. -/
def errorResponse (question : String) : RagResponse :=
  { answer := apologyText
    sources := []
    context :=
      { relevantPapers := [], searchQuery := question, searchType := "error",
        totalPapersFound := 0, confidence := 0 }
    suggestedQuestions :=
      ["Can you help me find papers on machine learning?",
       "What research topics are available in the database?",
       "Show me highly cited papers in the system"]
    reasoning := "Error in processing - using fallback response" }

/-- The try-block of `askQuestion`, step by step; every external call is
consumed by a component that catches its own failures, so no step of the
pipeline can raise. -/
def askQuestionTry (env : RagEnv) (question : String) (topic : Option String)
    (conversationHistory : Option (List (String × String))) :
    Except Unit RagResponse :=
  let questionAnalysis := analyzeQuestion env question
  let searchResults := hybridSearch env.neo4j question 10 topic
  let papersWithContent :=
    getPapersFullContent env (searchResults.combinedResults.take 5)
  let relevantPassages := extractRelevantPassages papersWithContent question
  let answer := generateAnswer env
  let suggestedQuestions := generateFollowUpQuestions env
  let _ := questionAnalysis
  let _ := conversationHistory
  Except.ok
    { answer := answer.answer
      sources := papersWithContent.map (fun p =>
        { id := p.item.paper.id, title := p.item.paper.title,
          relevance := sourceRelevance p })
      context :=
        { relevantPapers := papersWithContent
          searchQuery := question
          searchType := "hybrid"
          totalPapersFound := searchResults.combinedResults.length
          confidence := calculateConfidence papersWithContent relevantPassages }
      suggestedQuestions := suggestedQuestions
      reasoning := answer.reasoning }

/-- `askQuestion(question, topic?, conversationHistory?)`: the try-body with
the catch-all fallback. -/
def askQuestion (env : RagEnv) (question : String) (topic : Option String)
    (conversationHistory : Option (List (String × String))) : RagResponse :=
  match askQuestionTry env question topic conversationHistory with
  | .ok r => r
  | .error _ => errorResponse question

/-! ### AdvancedRAGService: step and overall confidence -/

/-- A research step as far as confidence aggregation is concerned. -/
structure RStep where
  question : String := ""
  confidence : ℤ
deriving DecidableEq, Repr

/-- `calculateStepConfidence(papers, passages)` (AdvancedRAGService):
```js
if (papers.length === 0) return 0;
const factors = {
  paperCount: Math.min(papers.length / 5, 1) * 30,
  contentQuality: papers.filter(p => p.hasFullContent).length / papers.length * 25,
  passageRelevance: passages.length > 0 ?
    passages.reduce((sum, p) => sum + p.relevance, 0) / passages.length * 30 : 0,
  citationStrength: papers.reduce((sum, p) => sum + (p.citationCount || 0), 0)
    / papers.length / 100 * 15
};
return Math.round(Object.values(factors).reduce((sum, val) => sum + val, 0));
``` -/
def calculateStepConfidence (papers : List PaperC) (passages : List Passage) : ℤ :=
  if papers.length = 0 then 0
  else
    let n : ℚ := (papers.length : ℕ)
    let paperCount : ℚ := min (n / 5) 1 * 30
    let contentQuality : ℚ :=
      ((papers.filter (fun p => p.hasFullContent)).length : ℚ) / n * 25
    let passageRelevance : ℚ :=
      if 0 < passages.length then
        ((passages.map (fun p => p.relevance)).sum / (passages.length : ℚ)) * 30
      else 0
    let citationStrength : ℚ :=
      ((papers.map (fun p => jsOrQ p.item.paper.citationCount 0)).sum / n) / 100 * 15
    jsRound (paperCount + contentQuality + passageRelevance + citationStrength)

/-- `calculateOverallConfidence(steps)` (AdvancedRAGService):
```js
if (steps.length === 0) return 0;
const avgStepConfidence = steps.reduce((sum, step) => sum + step.confidence, 0) / steps.length;
const consistencyBonus = steps.length > 1 ? 10 : 0;
return Math.min(100, Math.round(avgStepConfidence + consistencyBonus));
``` -/
def calculateOverallConfidence (steps : List RStep) : ℤ :=
  if steps.length = 0 then 0
  else
    let avgStepConfidence : ℚ :=
      (steps.map (fun s => (s.confidence : ℚ))).sum / (steps.length : ℚ)
    let consistencyBonus : ℚ := if 1 < steps.length then 10 else 0
    min 100 (jsRound (avgStepConfidence + consistencyBonus))

/-! ### Claim-side characterization of the merge policy

Per-strategy contributions of a paper id, phrased as in the specification
(the theorems below relate `combineSearchResults` to these). -/

def semContrib (sems : List SPaper) (pid : String) : ℚ :=
  match sems.find? (fun p => p.id == pid) with
  | some p => semScore p
  | none => 0

def kwContrib (kws : List SPaper) (pid : String) : ℚ :=
  match kws.find? (fun p => p.id == pid) with
  | some p => kwScore p
  | none => 0

def grContrib (grs : List SPaper) (pid : String) : ℚ :=
  match grs.find? (fun p => p.id == pid) with
  | some p => grScore p
  | none => 0

def inStrat (l : List SPaper) (pid : String) : Bool :=
  (l.find? (fun p => p.id == pid)).isSome

/-- Number of strategies whose result list contains the paper id. -/
def sourceCount (s k g : List SPaper) (pid : String) : ℕ :=
  (if inStrat s pid then 1 else 0) + (if inStrat k pid then 1 else 0) +
    (if inStrat g pid then 1 else 0)

/-- The sources list a merged entry for `pid` must carry. -/
def claimedSources (s k g : List SPaper) (pid : String) : List Strategy :=
  (if inStrat s pid then [Strategy.semantic] else []) ++
    (if inStrat k pid then [Strategy.keyword] else []) ++
    (if inStrat g pid then [Strategy.graph] else [])

/-- The combined score the specification assigns to a paper id. -/
def claimedScore (s k g : List SPaper) (pid : String) : ℚ :=
  semContrib s pid + kwContrib k pid + grContrib g pid +
    (if 1 < sourceCount s k g pid then
      bonusWeight * ((sourceCount s k g pid - 1 : ℕ) : ℚ) else 0)

/-- The effect of one merge phase on the map entry stored under `pid`:
an existing entry accumulates the strategy score and source tag of the
first (unique, under the per-strategy id invariant) matching result; a new
id gets a fresh entry. -/
def mergedLookup (score : SPaper → ℚ) (strat : Strategy) (ps : List SPaper)
    (prev : Option Combined) (pid : String) : Option Combined :=
  match prev, ps.find? (fun p => p.id == pid) with
  | some e, some p =>
    some { e with combinedScore := e.combinedScore + score p,
                  sources := e.sources ++ [strat] }
  | some e, none => some e
  | none, some p => some ⟨p, score p, [strat]⟩
  | none, none => none

/-! ### Concrete fixtures for witnesses and counterexamples -/

/-- A disconnected graph store whose query oracles would return data. -/
def downState : Neo4jState :=
  { connected := false
    driver := none
    dbSemantic := fun _ _ _ => .ok [{ id := "pA", similarity := some (9 / 10) }]
    dbKeyword := fun _ _ _ => .ok [{ id := "pB", relevance := some 2 }]
    dbGraph := fun _ _ _ => .ok [{ id := "pC", connectionStrength := some 3 }] }

/-- A connected graph store with fixed query results. -/
def upState : Neo4jState :=
  { connected := true
    driver := some ()
    dbSemantic := fun _ _ _ =>
      .ok [{ id := "pC", similarity := some (8 / 10) },
           { id := "pA", similarity := some (6 / 10) }]
    dbKeyword := fun _ _ _ =>
      .ok [{ id := "pC", relevance := some 3 }, { id := "pB", relevance := some 2 }]
    dbGraph := fun _ _ _ => .ok [{ id := "pD", connectionStrength := some 2 }] }

/-- Environment in which the answer-generation LLM call fails, the follow-up
call returns a short reply, and the graph store is down. -/
def envFailAnswer : RagEnv :=
  { neo4j := downState
    analysisGen := .ok "not json"
    parseAnalysis := fun _ => none
    contentOf := fun _ => .error ()
    answerGen := .error ()
    reasoningGen := .error ()
    followUpGen := .ok "ok" }

/-- Environment in which every external call fails. -/
def envAllFail : RagEnv :=
  { neo4j := downState
    analysisGen := .error ()
    parseAnalysis := fun _ => none
    contentOf := fun _ => .error ()
    answerGen := .error ()
    reasoningGen := .error ()
    followUpGen := .error () }

/-- A paper with full content and a very large citation count. -/
def stepPaperHighCit : PaperC :=
  { item := { paper := { id := "p1", citationCount := some 10000 },
              combinedScore := 0, sources := [] }
    fullContent := .str "x"
    contentType := "text/plain"
    hasFullContent := true }

/-- A paper with full content and a moderate citation count. -/
def stepPaperModCit : PaperC :=
  { item := { paper := { id := "p2", citationCount := some 50 },
              combinedScore := 0, sources := [] }
    fullContent := .str "x"
    contentType := "text/plain"
    hasFullContent := true }

/-- Concrete strategy results: paper pC appears in two strategies. -/
def pSem1 : SPaper := { id := "pC", similarity := some 1 }

def pKw1 : SPaper := { id := "pC", relevance := some 2 }

/-- The merged entry `combineSearchResults [pSem1] [pKw1] []` produces. -/
def eC : Combined :=
  { paper := pSem1
    combinedScore := semScore pSem1 + kwScore pKw1 + bonusWeight
    sources := [Strategy.semantic, Strategy.keyword] }

/-- Two concrete research steps. -/
def twoSteps : List RStep :=
  [{ question := "s1", confidence := 40 }, { question := "s2", confidence := 60 }]

/-! ## Helper lemmas -/

theorem jsRound_nonneg {q : ℚ} (h : 0 ≤ q) : 0 ≤ jsRound q := by
  rw [jsRound]
  have : (0 : ℚ) ≤ q + 1 / 2 := by linarith
  exact_mod_cast Int.le_floor.mpr (by exact_mod_cast this)

theorem jsRound_le_hundred {q : ℚ} (h : q ≤ 100) : jsRound q ≤ 100 := by
  rw [jsRound]
  have h2 : Int.floor (q + 1 / 2) < 101 := by
    apply Int.floor_lt.mpr
    push_cast
    linarith
  omega

theorem jsRound_intCast (c : ℤ) : jsRound (c : ℚ) = c := by
  rw [jsRound, Int.floor_eq_iff]
  constructor <;> push_cast <;> linarith

/-! ## Claim C2 -/

/-- Claim C2: for every query text, limit, and optional topic, when the
GraphStore connection is down (`connected` is false or the driver is null),
`hybridSearch` returns normally with all four result lists empty. -/
theorem C2_hybrid_disconnected (st : Neo4jState) (queryText : String) (limit : ℕ)
    (topic : Option String) (h : st.connected = false ∨ st.driver = none) :
    hybridSearch st queryText limit topic =
      { semanticResults := [], keywordResults := [], graphResults := [],
        combinedResults := [] } := by
  have hs : semanticSearch st queryText limit topic = [] := by
    rcases h with h | h <;> simp [semanticSearch, h]
  have hk : keywordSearch st queryText limit topic = [] := by
    rcases h with h | h <;> simp [keywordSearch, h]
  have hg : graphSearch st queryText limit topic = [] := by
    rcases h with h | h <;> simp [graphSearch, h]
  simp [hybridSearch, hs, hk, hg, combineSearchResults, combineMap, sortByDesc]

/-- Witness for C2 at a concrete disconnected store whose oracles would
return papers. -/
theorem C2_witness :
    (downState.connected = false ∨ downState.driver = none) ∧
    hybridSearch downState "transformer attention" 10 none =
      { semanticResults := [], keywordResults := [], graphResults := [],
        combinedResults := [] } :=
  ⟨Or.inl rfl,
   C2_hybrid_disconnected downState "transformer attention" 10 none (Or.inl rfl)⟩

/-! ## Claim C6 -/

/-- Claim C6: the embedding function is a pure deterministic function of the
text; two calls with identical text yield identical vectors. -/
theorem C6_embedding_deterministic (t1 t2 : String) (h : t1 = t2) :
    generateEmbeddings t1 = generateEmbeddings t2 := by rw [h]

/-- Witness for C6 at a concrete text. -/
theorem C6_witness :
    generateEmbeddings "attention is all you need" =
      generateEmbeddings "attention is all you need" :=
  C6_embedding_deterministic _ _ rfl

/-! ## Claim C9 -/

/-- Claim C9: when the generator call fails or its output fails JSON
parsing, `analyzeQuestion` returns the heuristic fallback
`{type: "factual", entities: extractSimpleEntities(question),
searchTerms: [question], intent: "research query"}` without throwing. -/
theorem C9_analyze_fallback (env : RagEnv) (question : String)
    (h : env.analysisGen = .error () ∨
      ∃ r, env.analysisGen = .ok r ∧ env.parseAnalysis r = none) :
    analyzeQuestion env question =
      { type := "factual", entities := extractSimpleEntities question,
        searchTerms := [question], intent := "research query" } := by
  rcases h with h | ⟨r, hr, hp⟩
  · simp [analyzeQuestion, h, fallbackAnalysis]
  · simp [analyzeQuestion, hr, hp, fallbackAnalysis]

/-- Witness for C9: a failing generator on a concrete question yields the
concrete heuristic extraction. -/
theorem C9_witness :
    analyzeQuestion envAllFail "What is machine learning?" =
      { type := "factual", entities := ["machine", "learning"],
        searchTerms := ["What is machine learning?"],
        intent := "research query" } := by
  rw [C9_analyze_fallback envAllFail "What is machine learning?" (Or.inl rfl)]
  decide

/-! ## Claim C4 (corrected) -/

/-- Counterexample to C4 as stated: with the graph store down and the
answer-generation LLM call failing, `askQuestion` does NOT return the fixed
apologetic error response — the failing step is absorbed by its own
fallback, the search type stays "hybrid", and (with a short follow-up
reply) `suggestedQuestions` is empty even though the paper list is empty. -/
theorem C4_counterexample :
    (askQuestion envFailAnswer "q" none none).context.searchType = "hybrid" ∧
    (askQuestion envFailAnswer "q" none none).answer ≠ apologyText ∧
    (askQuestion envFailAnswer "q" none none).suggestedQuestions = [] ∧
    (askQuestion envFailAnswer "q" none none).context.confidence = 0 := by
  refine ⟨rfl, ?_, rfl, rfl⟩
  show fallbackAnswerText ≠ apologyText
  decide

/-- Claim C4 as amended: `askQuestion` never throws — the try-body always
returns a value; when the retrieved paper list is empty the computed
confidence is 0 and the sources are empty; a failed follow-up call yields
exactly the 3 generic suggested questions; a failed answer call yields the
answer-level fallback text with search type still "hybrid" (the fixed
apologetic response with search type "error" is reserved for failures that
escape every inner handler). -/
theorem C4_askQuestion_resilient (env : RagEnv) (q : String) (topic : Option String)
    (hist : Option (List (String × String))) :
    (askQuestionTry env q topic hist).isOk = true ∧
    ((hybridSearch env.neo4j q 10 topic).combinedResults = [] →
      (askQuestion env q topic hist).context.confidence = 0 ∧
      (askQuestion env q topic hist).sources = []) ∧
    (env.followUpGen = .error () →
      (askQuestion env q topic hist).suggestedQuestions = fallbackFollowUps) ∧
    (env.answerGen = .error () →
      (askQuestion env q topic hist).answer = fallbackAnswerText ∧
      (askQuestion env q topic hist).context.searchType = "hybrid") := by
  refine ⟨rfl, ?_, ?_, ?_⟩
  · intro hempty
    constructor
    · show calculateConfidence
        (getPapersFullContent env ((hybridSearch env.neo4j q 10 topic).combinedResults.take 5))
        (extractRelevantPassages
          (getPapersFullContent env
            ((hybridSearch env.neo4j q 10 topic).combinedResults.take 5)) q) = 0
      rw [hempty]
      rfl
    · show (getPapersFullContent env
          ((hybridSearch env.neo4j q 10 topic).combinedResults.take 5)).map _ = []
      rw [hempty]
      rfl
  · intro hf
    show generateFollowUpQuestions env = fallbackFollowUps
    rw [generateFollowUpQuestions, hf]
  · intro ha
    refine ⟨?_, rfl⟩
    show (generateAnswer env).answer = fallbackAnswerText
    cases hr : env.reasoningGen <;> rw [generateAnswer, ha, hr]

/-- Witness for the amended C4: every external call failing still yields a
well-formed response with the generic fallbacks. -/
theorem C4_witness :
    (askQuestionTry envAllFail "What is attention?" none none).isOk = true ∧
    (askQuestion envAllFail "What is attention?" none none).suggestedQuestions =
      fallbackFollowUps ∧
    (askQuestion envAllFail "What is attention?" none none).answer =
      fallbackAnswerText := by
  have h := C4_askQuestion_resilient envAllFail "What is attention?" none none
  exact ⟨h.1, h.2.2.1 rfl, (h.2.2.2 rfl).1⟩

/-! ## Claim C5 (corrected) -/

/-- Counterexample to C5 as stated: for two steps with confidences 1 and 2,
the code returns `Math.round(1.5 + 10) = 12`, not the claimed
`mean + 10 = 11.5` (capped at 100). -/
theorem C5_counterexample :
    calculateOverallConfidence
      [{ question := "s1", confidence := 1 }, { question := "s2", confidence := 2 }] = 12 ∧
    ((calculateOverallConfidence
      [{ question := "s1", confidence := 1 }, { question := "s2", confidence := 2 }] : ℚ) ≠
      min 100 (((1 : ℚ) + 2) / 2 + 10)) := by
  have hv : calculateOverallConfidence
      [{ question := "s1", confidence := 1 }, { question := "s2", confidence := 2 }] = 12 := by
    rw [calculateOverallConfidence]
    norm_num [jsRound]
  refine ⟨hv, ?_⟩
  rw [hv]
  have hm : min (100 : ℚ) (((1 : ℚ) + 2) / 2 + 10) = 23 / 2 := by
    rw [min_eq_right] <;> norm_num
  rw [hm]
  norm_num

/-- Claim C5 as amended: `totalConfidence` is `Math.round` of (mean step
confidence plus 10 when there is more than one step), capped at 100; in
particular a single step with integer confidence in [0, 100] is returned
unchanged, with no +10 bonus. -/
theorem C5_overall_confidence (steps : List RStep) (c : ℤ)
    (h0 : 0 ≤ c) (h100 : c ≤ 100) :
    (steps ≠ [] →
      calculateOverallConfidence steps =
        min 100 (jsRound
          ((steps.map (fun s => (s.confidence : ℚ))).sum / (steps.length : ℚ) +
            if 1 < steps.length then 10 else 0))) ∧
    calculateOverallConfidence [{ question := "", confidence := c }] = c := by
  constructor
  · intro hne
    have hlen : steps.length ≠ 0 := by simpa [List.length_eq_zero] using hne
    simp [calculateOverallConfidence, hlen]
  · have h1 : calculateOverallConfidence [{ question := "", confidence := c }] =
        min 100 (jsRound ((c : ℚ))) := by
      simp [calculateOverallConfidence]
    rw [h1, jsRound_intCast, min_eq_right h100]

/-- Witness for the amended C5 at concrete inputs. -/
theorem C5_witness :
    calculateOverallConfidence twoSteps =
      min 100 (jsRound ((twoSteps.map (fun s => (s.confidence : ℚ))).sum /
        (twoSteps.length : ℚ) + if 1 < twoSteps.length then 10 else 0)) ∧
    calculateOverallConfidence [{ question := "", confidence := 55 }] = 55 := by
  have h := C5_overall_confidence twoSteps 55 (by decide) (by decide)
  exact ⟨h.1 (by decide), h.2⟩

/-! ## Claim C8 (corrected) -/

/-- Counterexample to C8 as stated: a single fully-available paper with
10000 citations and no passages yields step confidence 1531, far above 100
(the citation factor is uncapped). -/
theorem C8_counterexample :
    calculateStepConfidence [stepPaperHighCit] [] = 1531 ∧
    ¬ calculateStepConfidence [stepPaperHighCit] [] ≤ 100 := by
  have hv : calculateStepConfidence [stepPaperHighCit] [] = 1531 := by
    rw [calculateStepConfidence]
    norm_num [stepPaperHighCit, jsOrQ, jsRound, List.filter]
  exact ⟨hv, by rw [hv]; norm_num⟩

/-- Claim C8 as amended: with passage relevances in [0, 1] (as extraction
produces) and nonnegative citation counts, the step confidence is a
nonnegative integer, and it is at most 100 provided the papers' mean
citation count is at most 100. -/
theorem C8_step_confidence_range (papers : List PaperC) (passages : List Passage)
    (hrel : ∀ p ∈ passages, 0 ≤ p.relevance ∧ p.relevance ≤ 1)
    (hcit : ∀ p ∈ papers, 0 ≤ jsOrQ p.item.paper.citationCount 0) :
    0 ≤ calculateStepConfidence papers passages ∧
    ((papers.map (fun p => jsOrQ p.item.paper.citationCount 0)).sum ≤
        100 * (papers.length : ℚ) →
      calculateStepConfidence papers passages ≤ 100) := by
  by_cases hlen : papers.length = 0
  · simp [calculateStepConfidence, hlen]
  · have hn : (0 : ℚ) < (papers.length : ℚ) := by
      exact_mod_cast Nat.pos_of_ne_zero hlen
    have hfl : ((papers.filter (fun p => p.hasFullContent)).length : ℚ) ≤
        (papers.length : ℚ) := by
      exact_mod_cast List.length_filter_le _ papers
    have hfl0 : (0 : ℚ) ≤ ((papers.filter (fun p => p.hasFullContent)).length : ℚ) := by
      positivity
    have hcs0 : (0 : ℚ) ≤ (papers.map (fun p => jsOrQ p.item.paper.citationCount 0)).sum :=
      List.sum_nonneg (by
        intro x hx
        obtain ⟨p, hp, rfl⟩ := List.mem_map.mp hx
        exact hcit p hp)
    -- bounds for the four factors
    have ha0 : (0 : ℚ) ≤ min ((papers.length : ℚ) / 5) 1 * 30 := by positivity
    have ha1 : min ((papers.length : ℚ) / 5) 1 * 30 ≤ 30 := by
      have := min_le_right ((papers.length : ℚ) / 5) 1
      nlinarith
    have hb0 : (0 : ℚ) ≤
        ((papers.filter (fun p => p.hasFullContent)).length : ℚ) / (papers.length : ℚ) * 25 := by
      positivity
    have hb1 : ((papers.filter (fun p => p.hasFullContent)).length : ℚ) /
        (papers.length : ℚ) * 25 ≤ 25 := by
      have hdle : ((papers.filter (fun p => p.hasFullContent)).length : ℚ) /
          (papers.length : ℚ) ≤ 1 := (div_le_one hn).mpr hfl
      nlinarith
    have hc0 : (0 : ℚ) ≤ (if 0 < passages.length then
        ((passages.map (fun p => p.relevance)).sum / (passages.length : ℚ)) * 30 else 0) := by
      split
      · have hs0 : (0 : ℚ) ≤ (passages.map (fun p => p.relevance)).sum :=
          List.sum_nonneg (by
            intro x hx
            obtain ⟨p, hp, rfl⟩ := List.mem_map.mp hx
            exact (hrel p hp).1)
        positivity
      · exact le_refl 0
    have hc1 : (if 0 < passages.length then
        ((passages.map (fun p => p.relevance)).sum / (passages.length : ℚ)) * 30 else 0) ≤ 30 := by
      split
      · rename_i hpl
        have hplQ : (0 : ℚ) < (passages.length : ℚ) := by exact_mod_cast hpl
        have hsle : (passages.map (fun p => p.relevance)).sum ≤ (passages.length : ℚ) := by
          have := List.sum_le_card_nsmul (passages.map (fun p => p.relevance)) 1 (by
            intro x hx
            obtain ⟨p, hp, rfl⟩ := List.mem_map.mp hx
            exact (hrel p hp).2)
          simpa [nsmul_eq_mul] using this
        have : (passages.map (fun p => p.relevance)).sum / (passages.length : ℚ) ≤ 1 :=
          (div_le_one hplQ).mpr hsle
        nlinarith
      · norm_num
    constructor
    · rw [calculateStepConfidence, if_neg hlen]
      apply jsRound_nonneg
      have hd0 : (0 : ℚ) ≤ ((papers.map (fun p => jsOrQ p.item.paper.citationCount 0)).sum /
          (papers.length : ℚ)) / 100 * 15 := by positivity
      linarith
    · intro hsum
      rw [calculateStepConfidence, if_neg hlen]
      apply jsRound_le_hundred
      have hd1 : ((papers.map (fun p => jsOrQ p.item.paper.citationCount 0)).sum /
          (papers.length : ℚ)) / 100 * 15 ≤ 15 := by
        have hq : (papers.map (fun p => jsOrQ p.item.paper.citationCount 0)).sum /
            (papers.length : ℚ) ≤ 100 := (div_le_iff hn).mpr (by linarith)
        nlinarith
      have hd0 : (0 : ℚ) ≤ ((papers.map (fun p => jsOrQ p.item.paper.citationCount 0)).sum /
          (papers.length : ℚ)) / 100 * 15 := by positivity
      linarith

/-- Witness for the amended C8 at a concrete paper with 50 citations. -/
theorem C8_witness :
    0 ≤ calculateStepConfidence [stepPaperModCit] [] ∧
    calculateStepConfidence [stepPaperModCit] [] ≤ 100 := by
  have h := C8_step_confidence_range [stepPaperModCit] []
    (by intro p hp; cases hp)
    (by
      intro p hp
      rw [List.mem_singleton] at hp
      subst hp
      norm_num [stepPaperModCit, jsOrQ])
  refine ⟨h.1, h.2 ?_⟩
  norm_num [stepPaperModCit, jsOrQ]

/-! ## Lemmas on the result map -/

theorem mfind_isSome_iff (m : List Combined) (pid : String) :
    (mfind m pid).isSome = true ↔ pid ∈ mkeys m := by
  rw [mfind, mkeys, List.find?_isSome]
  constructor
  · rintro ⟨e, he, hpe⟩
    exact List.mem_map.mpr ⟨e, he, by simpa using hpe.symm⟩
  · rintro hm
    obtain ⟨e, he, heq⟩ := List.mem_map.mp hm
    exact ⟨e, he, by simp [heq]⟩

theorem mkeys_mupdate (m : List Combined) (pid : String) (g : Combined → Combined)
    (hg : ∀ e, (g e).paper = e.paper) :
    mkeys (mupdate m pid g) = mkeys m := by
  rw [mkeys, mupdate, List.map_map, mkeys]
  apply List.map_congr_left
  intro e _
  by_cases h : (e.paper.id == pid) = true <;> simp [Function.comp, h, hg]

theorem mfind_mupdate (m : List Combined) (pid : String) (g : Combined → Combined)
    (hg : ∀ e, (g e).paper = e.paper) (pid' : String) :
    mfind (mupdate m pid g) pid' =
      (mfind m pid').map (fun e => if e.paper.id == pid then g e else e) := by
  rw [mfind, mupdate, List.find?_map, mfind]
  have hpred : ((fun e : Combined => e.paper.id == pid') ∘
      fun e : Combined => if (e.paper.id == pid) = true then g e else e) =
      (fun e : Combined => e.paper.id == pid') := by
    funext e
    by_cases h : (e.paper.id == pid) = true <;> simp [Function.comp, h, hg]
  rw [hpred]

theorem mkeys_append (m : List Combined) (x : Combined) :
    mkeys (m ++ [x]) = mkeys m ++ [x.paper.id] := by
  simp [mkeys]

theorem mfind_append_single (m : List Combined) (x : Combined) (pid : String) :
    mfind (m ++ [x]) pid =
      match mfind m pid with
      | some e => some e
      | none => if x.paper.id == pid then some x else none := by
  have hsplit : mfind (m ++ [x]) pid = (mfind m pid).or (mfind [x] pid) := by
    rw [mfind, List.find?_append]; rfl
  rw [hsplit]
  cases hfe : mfind m pid with
  | some e => simp
  | none =>
    simp only [Option.none_or, mfind]
    by_cases h : (x.paper.id == pid) = true <;> simp [List.find?_cons, h]

theorem mfind_some_beq {m : List Combined} {pid : String} {e : Combined}
    (h : mfind m pid = some e) : (e.paper.id == pid) = true := by
  have h2 : List.find? (fun x : Combined => x.paper.id == pid) m = some e := by
    rwa [mfind] at h
  simpa using List.find?_some h2

theorem mem_of_mfind {m : List Combined} {pid : String} {e : Combined}
    (h : mfind m pid = some e) : e ∈ m := by
  have h2 : List.find? (fun x : Combined => x.paper.id == pid) m = some e := by
    rwa [mfind] at h
  exact List.mem_of_find?_eq_some h2

theorem find?_eq_none_of_not_mem_ids (ps : List SPaper) (pid : String)
    (h : pid ∉ ps.map (fun p => p.id)) :
    ps.find? (fun p => p.id == pid) = none := by
  rw [List.find?_eq_none]
  intro p hp hbeq
  exact h (List.mem_map.mpr ⟨p, hp, by simpa using hbeq.symm⟩)

theorem mfind_of_mem :
    ∀ (m : List Combined), (mkeys m).Nodup → ∀ e ∈ m, mfind m e.paper.id = some e := by
  intro m
  induction m with
  | nil => intro _ e he; cases he
  | cons x rest ih =>
    intro hnd e he
    rw [mkeys, List.map_cons, List.nodup_cons] at hnd
    rcases List.mem_cons.mp he with rfl | he
    · rw [mfind, List.find?_cons_of_pos _ (by simp)]
    · have hne : (x.paper.id == e.paper.id) = false := by
        apply beq_eq_false_iff_ne.mpr
        intro hcontra
        exact hnd.1 (hcontra ▸ List.mem_map.mpr ⟨e, he, rfl⟩)
      rw [mfind, List.find?_cons_of_neg _ (by simp [hne])]
      exact ih hnd.2 e he

/-! ## mergedLookup reduction lemmas -/

theorem mergedLookup_of_find?_none (score : SPaper → ℚ) (strat : Strategy)
    (ps : List SPaper) (prev : Option Combined) (pid : String)
    (h : ps.find? (fun p => p.id == pid) = none) :
    mergedLookup score strat ps prev pid = prev := by
  rw [mergedLookup.eq_def, h]
  cases prev <;> rfl

theorem mergedLookup_cons_neg (score : SPaper → ℚ) (strat : Strategy)
    (p : SPaper) (rest : List SPaper) (prev : Option Combined) (pid : String)
    (h : (p.id == pid) = false) :
    mergedLookup score strat (p :: rest) prev pid =
      mergedLookup score strat rest prev pid := by
  have hcons : (p :: rest).find? (fun q => q.id == pid) =
      rest.find? (fun q => q.id == pid) := by
    simp [List.find?_cons, h]
  rw [mergedLookup.eq_def, hcons, mergedLookup.eq_def]

theorem mergedLookup_cons_pos (score : SPaper → ℚ) (strat : Strategy)
    (p : SPaper) (rest : List SPaper) (prev : Option Combined) (pid : String)
    (h : (p.id == pid) = true) :
    mergedLookup score strat (p :: rest) prev pid =
      match prev with
      | some e =>
        some { e with combinedScore := e.combinedScore + score p,
                      sources := e.sources ++ [strat] }
      | none => some ⟨p, score p, [strat]⟩ := by
  have hcons : (p :: rest).find? (fun q => q.id == pid) = some p := by
    simp [List.find?_cons, h]
  rw [mergedLookup.eq_def, hcons]
  cases prev <;> rfl

theorem mergedLookup_isSome (score : SPaper → ℚ) (strat : Strategy)
    (ps : List SPaper) (prev : Option Combined) (pid : String) :
    (mergedLookup score strat ps prev pid).isSome =
      (prev.isSome || (ps.find? (fun p => p.id == pid)).isSome) := by
  rw [mergedLookup.eq_def]
  rcases prev with _ | e <;> rcases h : ps.find? (fun p => p.id == pid) with _ | p <;>
    simp [h]

/-! ## Characterization of the merge phases -/

theorem foldl_mergeStep_char (score : SPaper → ℚ) (strat : Strategy) :
    ∀ (ps : List SPaper) (m : List Combined),
      (mkeys m).Nodup → (ps.map (fun p => p.id)).Nodup →
      (mkeys (ps.foldl (mergeStep score strat) m)).Nodup ∧
      ∀ pid, mfind (ps.foldl (mergeStep score strat) m) pid =
        mergedLookup score strat ps (mfind m pid) pid := by
  intro ps
  induction ps with
  | nil =>
    intro m hm _
    refine ⟨hm, fun pid => ?_⟩
    rw [List.foldl_nil,
      mergedLookup_of_find?_none score strat [] (mfind m pid) pid (by simp)]
  | cons p rest ih =>
    intro m hm hps
    rw [List.map_cons, List.nodup_cons] at hps
    rw [List.foldl_cons]
    by_cases hin : (mfind m p.id).isSome = true
    · -- the map already holds p.id: in-place accumulation
      obtain ⟨e0, he0⟩ := Option.isSome_iff_exists.mp hin
      have hstep : mergeStep score strat m p =
          mupdate m p.id (fun e =>
            { e with combinedScore := e.combinedScore + score p,
                     sources := e.sources ++ [strat] }) := by
        rw [mergeStep, if_pos hin]
      have hg : ∀ e : Combined,
          ((fun e : Combined =>
            { e with combinedScore := e.combinedScore + score p,
                     sources := e.sources ++ [strat] }) e).paper = e.paper :=
        fun _ => rfl
      have hk := mkeys_mupdate m p.id _ hg
      obtain ⟨hnd, hlook⟩ := ih (mupdate m p.id _) (by rwa [hk]) hps.2
      rw [hstep]
      refine ⟨hnd, fun pid => ?_⟩
      rw [hlook pid, mfind_mupdate m p.id _ hg pid]
      by_cases hpid : pid = p.id
      · subst hpid
        have hbeq : (e0.paper.id == p.id) = true := mfind_some_beq he0
        rw [he0, Option.map_some',
          mergedLookup_of_find?_none score strat rest _ p.id
            (find?_eq_none_of_not_mem_ids rest p.id hps.1),
          mergedLookup_cons_pos score strat p rest _ p.id (by simp)]
        simp [hbeq]
      · have hpbeq : (p.id == pid) = false :=
          beq_eq_false_iff_ne.mpr (fun hc => hpid hc.symm)
        rw [mergedLookup_cons_neg score strat p rest _ pid hpbeq]
        congr 1
        rcases hfe : mfind m pid with _ | e
        · rfl
        · have hbeq : (e.paper.id == pid) = true := mfind_some_beq hfe
          have hne : (e.paper.id == p.id) = false := by
            apply beq_eq_false_iff_ne.mpr
            intro hcontra
            exact hpid ((by simpa using hbeq : e.paper.id = pid) ▸ hcontra)
          simp only [Option.map_some']
          rw [if_neg (by simp [hne])]
    · -- new key: append a fresh entry
      have hstep : mergeStep score strat m p =
          m ++ [⟨p, score p, [strat]⟩] := by
        rw [mergeStep, if_neg hin]
      have hmnone : mfind m p.id = none := by
        rcases hfe : mfind m p.id with _ | e
        · rfl
        · exact absurd (by rw [hfe]; rfl) hin
      have hnotin : p.id ∉ mkeys m := by
        intro hc
        exact hin ((mfind_isSome_iff m p.id).mpr hc)
      have hndnew : (mkeys (m ++ [⟨p, score p, [strat]⟩])).Nodup := by
        rw [mkeys_append m _, List.nodup_append]
        exact ⟨hm, List.nodup_singleton _, by
          intro a ha hb
          rw [List.mem_singleton] at hb
          exact hnotin (hb ▸ ha)⟩
      obtain ⟨hnd, hlook⟩ := ih (m ++ [⟨p, score p, [strat]⟩]) hndnew hps.2
      rw [hstep]
      refine ⟨hnd, fun pid => ?_⟩
      rw [hlook pid, mfind_append_single m _ pid]
      by_cases hpid : pid = p.id
      · subst hpid
        rw [hmnone,
          mergedLookup_of_find?_none score strat rest _ p.id
            (find?_eq_none_of_not_mem_ids rest p.id hps.1),
          mergedLookup_cons_pos score strat p rest _ p.id (by simp)]
        simp [hmnone]
      · have hpbeq : (p.id == pid) = false :=
          beq_eq_false_iff_ne.mpr (fun hc => hpid hc.symm)
        rw [mergedLookup_cons_neg score strat p rest _ pid hpbeq]
        rcases hfe : mfind m pid with _ | e <;> simp [hpbeq]

theorem foldl_setSemantic_eq :
    ∀ (sems : List SPaper) (acc : List Combined),
      (mkeys acc ++ sems.map (fun p => p.id)).Nodup →
      sems.foldl setSemantic acc =
        acc ++ sems.map (fun p => (⟨p, semScore p, [Strategy.semantic]⟩ : Combined)) := by
  intro sems
  induction sems with
  | nil => intro acc _; simp
  | cons p rest ih =>
    intro acc h
    rw [List.map_cons] at h
    have hnotin : p.id ∉ mkeys acc := by
      rw [List.nodup_append] at h
      intro hc
      exact h.2.2 hc (List.mem_cons_self _ _)
    have hstep : setSemantic acc p =
        acc ++ [⟨p, semScore p, [Strategy.semantic]⟩] := by
      rw [setSemantic, if_neg]
      intro hc
      exact hnotin ((mfind_isSome_iff acc p.id).mp hc)
    have hacc : (mkeys (acc ++ [⟨p, semScore p, [Strategy.semantic]⟩]) ++
        rest.map (fun p => p.id)).Nodup := by
      rw [mkeys_append]
      have hre : mkeys acc ++ [p.id] ++ rest.map (fun p => p.id) =
          mkeys acc ++ p.id :: rest.map (fun p => p.id) := by simp
      rw [hre]
      exact h
    rw [List.foldl_cons, hstep, ih _ hacc]
    simp

theorem combineMap_char (s k g : List SPaper)
    (hs : (s.map (fun p => p.id)).Nodup) (hk : (k.map (fun p => p.id)).Nodup)
    (hg : (g.map (fun p => p.id)).Nodup) :
    (mkeys (combineMap s k g)).Nodup ∧
    ∀ pid, mfind (combineMap s k g) pid =
      mergedLookup grScore Strategy.graph g
        (mergedLookup kwScore Strategy.keyword k
          ((s.find? (fun p => p.id == pid)).map
            (fun p => (⟨p, semScore p, [Strategy.semantic]⟩ : Combined))) pid) pid := by
  have hm1 : s.foldl setSemantic [] =
      s.map (fun p => (⟨p, semScore p, [Strategy.semantic]⟩ : Combined)) := by
    rw [foldl_setSemantic_eq s [] (by simpa [mkeys] using hs)]
    simp
  have hm1keys : mkeys (s.foldl setSemantic []) = s.map (fun p => p.id) := by
    rw [hm1, mkeys, List.map_map]
    rfl
  have hm1find : ∀ pid, mfind (s.foldl setSemantic []) pid =
      (s.find? (fun p => p.id == pid)).map
        (fun p => (⟨p, semScore p, [Strategy.semantic]⟩ : Combined)) := by
    intro pid
    rw [hm1, mfind, List.find?_map]
    rfl
  obtain ⟨hnd2, hlook2⟩ := foldl_mergeStep_char kwScore Strategy.keyword k
    (s.foldl setSemantic []) (by rwa [hm1keys]) hk
  obtain ⟨hnd3, hlook3⟩ := foldl_mergeStep_char grScore Strategy.graph g
    (k.foldl (mergeStep kwScore Strategy.keyword) (s.foldl setSemantic [])) hnd2 hg
  refine ⟨hnd3, fun pid => ?_⟩
  rw [combineMap, hlook3 pid, hlook2 pid, hm1find pid]

theorem mergedLookup_of_find?_some (score : SPaper → ℚ) (strat : Strategy)
    (ps : List SPaper) (prev : Option Combined) (pid : String) (p : SPaper)
    (h : ps.find? (fun q => q.id == pid) = some p) :
    mergedLookup score strat ps prev pid =
      match prev with
      | some e =>
        some { e with combinedScore := e.combinedScore + score p,
                      sources := e.sources ++ [strat] }
      | none => some ⟨p, score p, [strat]⟩ := by
  rw [mergedLookup.eq_def, h]
  cases prev <;> rfl

/-- The entry the final result map holds for a paper id: its score is the
sum of the per-strategy contributions and its sources list records the
contributing strategies in semantic/keyword/graph order. -/
theorem combineMap_lookup_char (s k g : List SPaper)
    (hs : (s.map (fun p => p.id)).Nodup) (hk : (k.map (fun p => p.id)).Nodup)
    (hg : (g.map (fun p => p.id)).Nodup) (pid : String) :
    ∀ e, mfind (combineMap s k g) pid = some e →
      e.combinedScore = semContrib s pid + kwContrib k pid + grContrib g pid ∧
      e.sources = claimedSources s k g pid := by
  intro e he
  rw [(combineMap_char s k g hs hk hg).2 pid, mergedLookup.eq_def] at he
  rcases hgf : g.find? (fun p => p.id == pid) with _ | p3 <;> rw [hgf] at he <;>
    rw [mergedLookup.eq_def] at he <;>
      rcases hkf : k.find? (fun p => p.id == pid) with _ | p2 <;> rw [hkf] at he <;>
        rcases hsf : s.find? (fun p => p.id == pid) with _ | p1 <;> rw [hsf] at he <;>
          simp only [Option.map_some', Option.map_none', Option.some.injEq] at he
  case none.none.none => cases he
  case none.none.some =>
    subst he
    simp [semContrib, kwContrib, grContrib, claimedSources, inStrat, hsf, hkf, hgf]
  case none.some.none =>
    subst he
    simp [semContrib, kwContrib, grContrib, claimedSources, inStrat, hsf, hkf, hgf]
  case none.some.some =>
    subst he
    simp [semContrib, kwContrib, grContrib, claimedSources, inStrat, hsf, hkf, hgf]
  case some.none.none =>
    subst he
    simp [semContrib, kwContrib, grContrib, claimedSources, inStrat, hsf, hkf, hgf]
  case some.none.some =>
    subst he
    simp [semContrib, kwContrib, grContrib, claimedSources, inStrat, hsf, hkf, hgf,
      add_assoc]
  case some.some.none =>
    subst he
    simp [semContrib, kwContrib, grContrib, claimedSources, inStrat, hsf, hkf, hgf]
  case some.some.some =>
    subst he
    simp [semContrib, kwContrib, grContrib, claimedSources, inStrat, hsf, hkf, hgf,
      add_assoc]

theorem length_claimedSources (s k g : List SPaper) (pid : String) :
    (claimedSources s k g pid).length = sourceCount s k g pid := by
  rw [claimedSources, sourceCount]
  cases h1 : inStrat s pid <;> cases h2 : inStrat k pid <;> cases h3 : inStrat g pid <;>
    simp

/-! ## Insertion sort (descending by score) -/

theorem mem_insertDesc (score : α → ℚ) (x a : α) :
    ∀ (l : List α), a ∈ insertDesc score x l ↔ a = x ∨ a ∈ l := by
  intro l
  induction l with
  | nil => simp [insertDesc]
  | cons y ys ih =>
    rw [insertDesc]
    by_cases h : score y < score x
    · rw [if_pos h]
      simp [List.mem_cons]
    · rw [if_neg h]
      rw [List.mem_cons, ih, List.mem_cons]
      tauto

theorem mem_sortByDesc (score : α → ℚ) (l : List α) (a : α) :
    a ∈ sortByDesc score l ↔ a ∈ l := by
  rw [sortByDesc]
  induction l with
  | nil => simp
  | cons y ys ih =>
    rw [List.foldr_cons, mem_insertDesc, ih, List.mem_cons]

theorem sorted_insertDesc (score : α → ℚ) (x : α) :
    ∀ (l : List α), l.Sorted (fun a b => score b ≤ score a) →
      (insertDesc score x l).Sorted (fun a b => score b ≤ score a) := by
  intro l
  induction l with
  | nil => intro _; simp [insertDesc]
  | cons y ys ih =>
    intro h
    rw [List.sorted_cons] at h
    rw [insertDesc]
    by_cases hc : score y < score x
    · rw [if_pos hc, List.sorted_cons]
      constructor
      · intro b hb
        rcases List.mem_cons.mp hb with rfl | hb
        · exact le_of_lt hc
        · exact le_trans (h.1 b hb) (le_of_lt hc)
      · exact List.sorted_cons.mpr h
    · rw [if_neg hc, List.sorted_cons]
      refine ⟨?_, ih h.2⟩
      intro b hb
      rcases (mem_insertDesc score x b ys).mp hb with rfl | hb
      · exact le_of_not_lt hc
      · exact h.1 b hb

theorem sorted_sortByDesc (score : α → ℚ) (l : List α) :
    (sortByDesc score l).Sorted (fun a b => score b ≤ score a) := by
  rw [sortByDesc]
  induction l with
  | nil => simp
  | cons y ys ih => exact sorted_insertDesc score y _ ih

/-! ## The bonus layer and the full merge -/

theorem applyBonus_paper (e : Combined) : (applyBonus e).paper = e.paper := by
  rw [applyBonus]
  split <;> rfl

theorem applyBonus_sources (e : Combined) : (applyBonus e).sources = e.sources := by
  rw [applyBonus]
  split <;> rfl

/-- Every entry of `combineSearchResults` carries the claimed combined
score (weighted contributions plus multi-source bonus) and the claimed
number of sources. -/
theorem combineSearchResults_entry (s k g : List SPaper)
    (hs : (s.map (fun p => p.id)).Nodup) (hk : (k.map (fun p => p.id)).Nodup)
    (hg : (g.map (fun p => p.id)).Nodup) :
    ∀ e ∈ combineSearchResults s k g,
      e.combinedScore = claimedScore s k g e.paper.id ∧
      e.sources.length = sourceCount s k g e.paper.id := by
  intro e he
  rw [combineSearchResults, mem_sortByDesc] at he
  obtain ⟨e3, he3, rfl⟩ := List.mem_map.mp he
  have hnod := (combineMap_char s k g hs hk hg).1
  have hfind := mfind_of_mem _ hnod e3 he3
  obtain ⟨hsc, hsrc⟩ := combineMap_lookup_char s k g hs hk hg e3.paper.id e3 hfind
  have hlen3 : e3.sources.length = sourceCount s k g e3.paper.id := by
    rw [hsrc, length_claimedSources]
  have hpid : (applyBonus e3).paper.id = e3.paper.id := by rw [applyBonus_paper]
  constructor
  · rw [hpid, claimedScore, ← hsc, ← hlen3, applyBonus]
    by_cases hb : 1 < e3.sources.length
    · rw [if_pos hb, if_pos hb]
    · rw [if_neg hb, if_neg hb, add_zero]
  · rw [hpid, ← hlen3, applyBonus_sources]

theorem combineMap_isSome_union (s k g : List SPaper)
    (hs : (s.map (fun p => p.id)).Nodup) (hk : (k.map (fun p => p.id)).Nodup)
    (hg : (g.map (fun p => p.id)).Nodup) (pid : String) :
    (mfind (combineMap s k g) pid).isSome =
      (inStrat s pid || inStrat k pid || inStrat g pid) := by
  rw [(combineMap_char s k g hs hk hg).2 pid, mergedLookup_isSome, mergedLookup_isSome,
    Option.isSome_map', inStrat, inStrat, inStrat]

/-! ## Claim C1 -/

/-- Claim C1: `hybridSearch` merges the three strategy result lists by
weighted score — 0.5 similarity + 0.3 relevance + 0.2 connectionStrength —
plus a flat bonus of 0.1 per additional contributing strategy; every id
from any strategy appears in the merged list, which is sorted descending
by combined score and truncated to `limit`.  (Stated under the per-strategy
id-uniqueness invariant of the data model.) -/
theorem C1_hybridSearch_merge (st : Neo4jState) (queryText : String) (limit : ℕ)
    (topic : Option String)
    (hs : ((semanticSearch st queryText limit topic).map (fun p => p.id)).Nodup)
    (hk : ((keywordSearch st queryText limit topic).map (fun p => p.id)).Nodup)
    (hg : ((graphSearch st queryText limit topic).map (fun p => p.id)).Nodup) :
    (∀ e ∈ (hybridSearch st queryText limit topic).combinedResults,
      e.combinedScore = claimedScore (semanticSearch st queryText limit topic)
        (keywordSearch st queryText limit topic)
        (graphSearch st queryText limit topic) e.paper.id ∧
      e.sources.length = sourceCount (semanticSearch st queryText limit topic)
        (keywordSearch st queryText limit topic)
        (graphSearch st queryText limit topic) e.paper.id) ∧
    (hybridSearch st queryText limit topic).combinedResults.Sorted
      (fun a b => b.combinedScore ≤ a.combinedScore) ∧
    (hybridSearch st queryText limit topic).combinedResults.length ≤ limit ∧
    (∀ pid,
      (inStrat (semanticSearch st queryText limit topic) pid = true ∨
       inStrat (keywordSearch st queryText limit topic) pid = true ∨
       inStrat (graphSearch st queryText limit topic) pid = true) ↔
      ∃ e ∈ combineSearchResults (semanticSearch st queryText limit topic)
          (keywordSearch st queryText limit topic)
          (graphSearch st queryText limit topic), e.paper.id = pid) := by
  have hcomb : (hybridSearch st queryText limit topic).combinedResults =
      (combineSearchResults (semanticSearch st queryText limit topic)
        (keywordSearch st queryText limit topic)
        (graphSearch st queryText limit topic)).take limit := rfl
  refine ⟨?_, ?_, ?_, ?_⟩
  · intro e he
    rw [hcomb] at he
    exact combineSearchResults_entry _ _ _ hs hk hg e (List.take_subset _ _ he)
  · rw [hcomb, combineSearchResults]
    exact List.Pairwise.sublist (List.take_sublist _ _)
      (sorted_sortByDesc (fun e : Combined => e.combinedScore) _)
  · rw [hcomb, List.length_take]
    exact min_le_left _ _
  · intro pid
    constructor
    · intro hunion
      have hsome : (mfind (combineMap (semanticSearch st queryText limit topic)
          (keywordSearch st queryText limit topic)
          (graphSearch st queryText limit topic)) pid).isSome = true := by
        rw [combineMap_isSome_union _ _ _ hs hk hg pid]
        rcases hunion with h | h | h <;> simp [h]
      obtain ⟨e3, he3⟩ := Option.isSome_iff_exists.mp hsome
      refine ⟨applyBonus e3, ?_, ?_⟩
      · rw [combineSearchResults, mem_sortByDesc]
        exact List.mem_map.mpr ⟨e3, mem_of_mfind he3, rfl⟩
      · rw [applyBonus_paper]
        simpa using mfind_some_beq he3
    · rintro ⟨e, he, rfl⟩
      rw [combineSearchResults, mem_sortByDesc] at he
      obtain ⟨e3, he3, rfl⟩ := List.mem_map.mp he
      have hmem : e3.paper.id ∈
          mkeys (combineMap (semanticSearch st queryText limit topic)
            (keywordSearch st queryText limit topic)
            (graphSearch st queryText limit topic)) := by
        rw [mkeys]
        exact List.mem_map.mpr ⟨e3, he3, rfl⟩
      have hsome := (mfind_isSome_iff _ _).mpr hmem
      rw [combineMap_isSome_union _ _ _ hs hk hg] at hsome
      rw [applyBonus_paper]
      simpa [Bool.or_eq_true, or_assoc] using hsome

/-- Witness for C1 at a connected store with concrete query results. -/
theorem C1_witness :
    ((semanticSearch upState "q" 10 none).map (fun p => p.id)).Nodup ∧
    (∀ e ∈ (hybridSearch upState "q" 10 none).combinedResults,
      e.combinedScore = claimedScore (semanticSearch upState "q" 10 none)
        (keywordSearch upState "q" 10 none) (graphSearch upState "q" 10 none)
        e.paper.id ∧
      e.sources.length = sourceCount (semanticSearch upState "q" 10 none)
        (keywordSearch upState "q" 10 none) (graphSearch upState "q" 10 none)
        e.paper.id) ∧
    (hybridSearch upState "q" 10 none).combinedResults.Sorted
      (fun a b => b.combinedScore ≤ a.combinedScore) ∧
    (hybridSearch upState "q" 10 none).combinedResults.length ≤ 10 := by
  have h := C1_hybridSearch_merge upState "q" 10 none (by decide) (by decide) (by decide)
  exact ⟨by decide, h.1, h.2.1, h.2.2.1⟩

/-! ## Claim C7 -/

/-- Claim C7: a paper appearing in at least two strategies has a combined
score at least as large as each single weighted strategy contribution (so
at least its best one): the extra contributions and the multi-source bonus
never decrease the score.  (Stated under the per-strategy id-uniqueness
invariant and nonnegative strategy scores, both guaranteed by the search
legs.) -/
theorem C7_multi_source_monotone (s k g : List SPaper)
    (hs : (s.map (fun p => p.id)).Nodup) (hk : (k.map (fun p => p.id)).Nodup)
    (hg : (g.map (fun p => p.id)).Nodup)
    (hsim : ∀ p ∈ s, 0 ≤ jsOrQ p.similarity 0)
    (hrel : ∀ p ∈ k, 0 ≤ jsOrQ p.relevance 0)
    (hconn : ∀ p ∈ g, 0 ≤ jsOrQ p.connectionStrength 0) :
    ∀ e ∈ combineSearchResults s k g, 2 ≤ e.sources.length →
      semContrib s e.paper.id ≤ e.combinedScore ∧
      kwContrib k e.paper.id ≤ e.combinedScore ∧
      grContrib g e.paper.id ≤ e.combinedScore := by
  intro e he _
  obtain ⟨hscore, _⟩ := combineSearchResults_entry s k g hs hk hg e he
  have hsem : 0 ≤ semContrib s e.paper.id := by
    rw [semContrib]
    rcases hf : s.find? (fun p => p.id == e.paper.id) with _ | p <;> rw [hf]
    show (0 : ℚ) ≤ semScore p
    exact mul_nonneg (hsim p (List.mem_of_find?_eq_some hf)) (by norm_num [semWeight])
  have hkw : 0 ≤ kwContrib k e.paper.id := by
    rw [kwContrib]
    rcases hf : k.find? (fun p => p.id == e.paper.id) with _ | p <;> rw [hf]
    show (0 : ℚ) ≤ kwScore p
    exact mul_nonneg (hrel p (List.mem_of_find?_eq_some hf)) (by norm_num [kwWeight])
  have hgr : 0 ≤ grContrib g e.paper.id := by
    rw [grContrib]
    rcases hf : g.find? (fun p => p.id == e.paper.id) with _ | p <;> rw [hf]
    show (0 : ℚ) ≤ grScore p
    exact mul_nonneg (hconn p (List.mem_of_find?_eq_some hf)) (by norm_num [grWeight])
  have hbonus : 0 ≤ (if 1 < sourceCount s k g e.paper.id then
      bonusWeight * ((sourceCount s k g e.paper.id - 1 : ℕ) : ℚ) else 0) := by
    split
    · exact mul_nonneg (by norm_num [bonusWeight]) (Nat.cast_nonneg _)
    · exact le_refl 0
  rw [hscore, claimedScore]
  exact ⟨by linarith, by linarith, by linarith⟩

/-- Witness for C7 at concrete strategy lists in which paper pC appears in
both the semantic and the keyword results, specialized to the merged entry
pC produces. -/
theorem C7_witness :
    eC ∈ combineSearchResults [pSem1] [pKw1] [] ∧ 2 ≤ eC.sources.length ∧
      semContrib [pSem1] eC.paper.id ≤ eC.combinedScore ∧
      kwContrib [pKw1] eC.paper.id ≤ eC.combinedScore ∧
      grContrib [] eC.paper.id ≤ eC.combinedScore := by
  have hmem : eC ∈ combineSearchResults [pSem1] [pKw1] [] := by
    norm_num [combineSearchResults, combineMap, setSemantic, mergeStep, mfind,
      mupdate, applyBonus, sortByDesc, insertDesc, eC, pSem1, pKw1, semScore,
      kwScore, jsOrQ, semWeight, kwWeight, bonusWeight]
  have h := C7_multi_source_monotone [pSem1] [pKw1] [] (by decide) (by decide)
    (by decide)
    (by intro p hp; rw [List.mem_singleton] at hp; subst hp; norm_num [pSem1, jsOrQ])
    (by intro p hp; rw [List.mem_singleton] at hp; subst hp; norm_num [pKw1, jsOrQ])
    (by intro p hp; cases hp)
    eC hmem (by decide)
  exact ⟨hmem, by decide, h.1, h.2.1, h.2.2⟩

/-! ## Lemmas on JS array writes -/

theorem jsSet_length {l : List ℝ} {i : ℕ} (h : i < l.length) (v : ℝ) :
    (jsSet l i v).length = l.length := by
  rw [jsSet, if_pos h, List.length_set]

theorem jsAddAt_length {l : List ℝ} {i : ℕ} (h : i < l.length) (v : ℝ) :
    (jsAddAt l i v).length = l.length := jsSet_length h _

theorem getD_jsSet_self {l : List ℝ} {i : ℕ} (h : i < l.length) (v : ℝ) :
    (jsSet l i v).getD i 0 = v := by
  rw [jsSet, if_pos h, List.getD_eq_getElem?_getD, List.getElem?_set_self h]
  rfl

theorem getD_jsSet_ne {l : List ℝ} {i j : ℕ} (hne : j ≠ i) (v : ℝ) :
    (jsSet l i v).getD j 0 = l.getD j 0 := by
  rw [jsSet]
  split
  · rw [List.getD_eq_getElem?_getD, List.getD_eq_getElem?_getD,
      List.getElem?_set_ne (fun hc => hne hc.symm)]
  · rename_i hlt
    have hge : l.length ≤ i := le_of_not_lt hlt
    rw [List.getD_eq_getElem?_getD, List.getD_eq_getElem?_getD, List.append_assoc]
    by_cases hj : j < l.length
    · rw [List.getElem?_append_left hj]
    · have hjl : l.length ≤ j := le_of_not_lt hj
      rw [List.getElem?_append_right hjl, List.getElem?_eq_none hjl]
      by_cases hji : j - l.length < i - l.length
      · rw [List.getElem?_append_left (by simpa using hji),
          List.getElem?_replicate]
        simp [hji]
      · have hge2 : (List.replicate (i - l.length) (0 : ℝ)).length ≤ j - l.length := by
          simpa using le_of_not_lt hji
        rw [List.getElem?_append_right hge2, List.getElem?_eq_none (by
          simp only [List.length_replicate, List.length_singleton]
          omega)]

theorem getD_jsAddAt_ne {l : List ℝ} {i j : ℕ} (hne : j ≠ i) (v : ℝ) :
    (jsAddAt l i v).getD j 0 = l.getD j 0 := getD_jsSet_ne hne _

theorem getD_jsAddAt_self {l : List ℝ} {i : ℕ} (h : i < l.length) (v : ℝ) :
    (jsAddAt l i v).getD i 0 = l.getD i 0 + v := getD_jsSet_self h _

theorem getD_jsAddAt_le {l : List ℝ} {i j : ℕ} (hv : 0 ≤ v) (hi : i < l.length) :
    l.getD j 0 ≤ (jsAddAt l i v).getD j 0 := by
  by_cases hji : j = i
  · subst hji
    rw [getD_jsAddAt_self hi]
    linarith
  · rw [getD_jsAddAt_ne hji]

/-! ## Lemmas on the three feature-block loops -/

theorem mod_lt_256 (n : ℕ) : n % 256 < 256 := Nat.mod_lt _ (by norm_num)

theorem mod_lt_128 (n : ℕ) : n % 128 < 128 := Nat.mod_lt _ (by norm_num)

theorem tfLoop_step_length {emb : List ℝ} (h : emb.length = 512) (w : List Char)
    (dI : ℕ) (nf : ℝ) :
    (jsAddAt (jsAddAt emb (dI % 256) nf) (enhancedHash w % 256) (nf * (1 / 2))).length
      = 512 := by
  have h1 : (jsAddAt emb (dI % 256) nf).length = 512 := by
    rw [jsAddAt_length (by rw [h]; have := mod_lt_256 dI; omega)]
    exact h
  rw [jsAddAt_length (by rw [h1]; have := mod_lt_256 (enhancedHash w); omega)]
  exact h1

theorem tfLoop_length (mf : ℕ) :
    ∀ (pairs : List (List Char × ℕ)) (dI : ℕ) (emb : List ℝ),
      emb.length = 512 → (tfLoop mf pairs dI emb).length = 512 := by
  intro pairs
  induction pairs with
  | nil => intro dI emb h; rw [tfLoop]; exact h
  | cons pr rest ih =>
    intro dI emb h
    obtain ⟨w, f⟩ := pr
    rw [tfLoop]
    split
    · exact h
    · exact ih _ _ (tfLoop_step_length h w dI _)

theorem tfLoop_getD_high (mf : ℕ) :
    ∀ (pairs : List (List Char × ℕ)) (dI : ℕ) (emb : List ℝ),
      emb.length = 512 → ∀ j, 256 ≤ j →
        (tfLoop mf pairs dI emb).getD j 0 = emb.getD j 0 := by
  intro pairs
  induction pairs with
  | nil => intro dI emb _ j _; rw [tfLoop]
  | cons pr rest ih =>
    intro dI emb h j hj
    obtain ⟨w, f⟩ := pr
    rw [tfLoop]
    split
    · rfl
    · rw [ih _ _ (tfLoop_step_length h w dI _) j hj,
        getD_jsAddAt_ne (by have := mod_lt_256 (enhancedHash w); omega),
        getD_jsAddAt_ne (by have := mod_lt_256 dI; omega)]

theorem tfLoop_getD_le (mf : ℕ) :
    ∀ (pairs : List (List Char × ℕ)) (dI : ℕ) (emb : List ℝ),
      emb.length = 512 → ∀ j,
        emb.getD j 0 ≤ (tfLoop mf pairs dI emb).getD j 0 := by
  intro pairs
  induction pairs with
  | nil => intro dI emb _ j; rw [tfLoop]
  | cons pr rest ih =>
    intro dI emb h j
    obtain ⟨w, f⟩ := pr
    rw [tfLoop]
    split
    · rfl
    · have hnf : (0 : ℝ) ≤ (f : ℝ) / (mf : ℝ) := by positivity
      have hi1 : dI % 256 < emb.length := by
        rw [h]; have := mod_lt_256 dI; omega
      have h1 : (jsAddAt emb (dI % 256) ((f : ℝ) / (mf : ℝ))).length = 512 := by
        rw [jsAddAt_length hi1]; exact h
      have hi2 : enhancedHash w % 256 <
          (jsAddAt emb (dI % 256) ((f : ℝ) / (mf : ℝ))).length := by
        rw [h1]; have := mod_lt_256 (enhancedHash w); omega
      calc emb.getD j 0
          ≤ (jsAddAt emb (dI % 256) ((f : ℝ) / (mf : ℝ))).getD j 0 :=
            getD_jsAddAt_le hnf hi1
        _ ≤ (jsAddAt (jsAddAt emb (dI % 256) ((f : ℝ) / (mf : ℝ)))
              (enhancedHash w % 256) ((f : ℝ) / (mf : ℝ) * (1 / 2))).getD j 0 :=
            getD_jsAddAt_le (by positivity) hi2
        _ ≤ _ := ih _ _ (tfLoop_step_length h w dI _) j

theorem ngramLoop_length :
    ∀ (gs : List (List Char)) (i : ℕ) (emb : List ℝ),
      emb.length = 512 → (ngramLoop gs i emb).length = 512 := by
  intro gs
  induction gs with
  | nil => intro i emb h; rw [ngramLoop]; exact h
  | cons gr rest ih =>
    intro i emb h
    rw [ngramLoop]
    split
    · exact ih _ _ h
    · refine ih _ _ ?_
      rw [jsAddAt_length (by rw [h]; have := mod_lt_128 (enhancedHash gr); omega)]
      exact h

theorem ngramLoop_getD_out :
    ∀ (gs : List (List Char)) (i : ℕ) (emb : List ℝ),
      emb.length = 512 → ∀ j, j < 256 ∨ 384 ≤ j →
        (ngramLoop gs i emb).getD j 0 = emb.getD j 0 := by
  intro gs
  induction gs with
  | nil => intro i emb _ j _; rw [ngramLoop]
  | cons gr rest ih =>
    intro i emb h j hj
    rw [ngramLoop]
    split
    · exact ih _ _ h j hj
    · have hlen : (jsAddAt emb (256 + enhancedHash gr % 128)
          (1 / Real.sqrt ((splitOnChar ' ' gr).length : ℝ))).length = 512 := by
        rw [jsAddAt_length (by rw [h]; have := mod_lt_128 (enhancedHash gr); omega)]
        exact h
      rw [ih _ _ hlen j hj,
        getD_jsAddAt_ne (by have := mod_lt_128 (enhancedHash gr); omega)]

theorem ngramLoop_getD_le :
    ∀ (gs : List (List Char)) (i : ℕ) (emb : List ℝ),
      emb.length = 512 → ∀ j,
        emb.getD j 0 ≤ (ngramLoop gs i emb).getD j 0 := by
  intro gs
  induction gs with
  | nil => intro i emb _ j; rw [ngramLoop]
  | cons gr rest ih =>
    intro i emb h j
    rw [ngramLoop]
    split
    · exact ih _ _ h j
    · have hi : 256 + enhancedHash gr % 128 < emb.length := by
        rw [h]; have := mod_lt_128 (enhancedHash gr); omega
      have hlen : (jsAddAt emb (256 + enhancedHash gr % 128)
          (1 / Real.sqrt ((splitOnChar ' ' gr).length : ℝ))).length = 512 := by
        rw [jsAddAt_length hi]; exact h
      calc emb.getD j 0
          ≤ (jsAddAt emb (256 + enhancedHash gr % 128)
              (1 / Real.sqrt ((splitOnChar ' ' gr).length : ℝ))).getD j 0 :=
            getD_jsAddAt_le (by positivity) hi
        _ ≤ _ := ih _ _ hlen j

theorem semLoop_length :
    ∀ (vs : List ℚ) (i : ℕ) (emb : List ℝ),
      emb.length = 512 → (semLoop vs i emb).length = 512 := by
  intro vs
  induction vs with
  | nil => intro i emb h; rw [semLoop]; exact h
  | cons v rest ih =>
    intro i emb h
    rw [semLoop]
    split
    · rename_i hi
      refine ih _ _ ?_
      rw [jsSet_length (by rw [h]; omega)]
      exact h
    · exact ih _ _ h

theorem semLoop_getD_low :
    ∀ (vs : List ℚ) (i : ℕ) (emb : List ℝ),
      emb.length = 512 → ∀ j, j < 384 →
        (semLoop vs i emb).getD j 0 = emb.getD j 0 := by
  intro vs
  induction vs with
  | nil => intro i emb _ j _; rw [semLoop]
  | cons v rest ih =>
    intro i emb h j hj
    rw [semLoop]
    split
    · rename_i hi
      have hlen : (jsSet emb (384 + i) ((v : ℝ))).length = 512 := by
        rw [jsSet_length (by rw [h]; omega)]
        exact h
      rw [ih _ _ hlen j hj, getD_jsSet_ne (by omega)]
    · exact ih _ _ h j hj

/-! ## Norm lemmas -/

theorem l2sq_nonneg (l : List ℝ) : 0 ≤ l2sq l := by
  rw [l2sq]
  apply List.sum_nonneg
  intro x hx
  obtain ⟨v, _, rfl⟩ := List.mem_map.mp hx
  exact mul_self_nonneg v

theorem getD_sq_le_l2sq : ∀ (l : List ℝ) (j : ℕ),
    l.getD j 0 * l.getD j 0 ≤ l2sq l := by
  intro l
  induction l with
  | nil => intro j; simp [l2sq]
  | cons v rest ih =>
    intro j
    have hrest : 0 ≤ l2sq rest := l2sq_nonneg rest
    rcases j with _ | j
    · rw [l2sq, List.map_cons, List.sum_cons, ← l2sq, List.getD_cons_zero]
      linarith
    · rw [l2sq, List.map_cons, List.sum_cons, ← l2sq, List.getD_cons_succ]
      have h1 := ih j
      have h2 : 0 ≤ v * v := mul_self_nonneg v
      linarith

theorem l2sq_replicate_zero (n : ℕ) : l2sq (List.replicate n (0 : ℝ)) = 0 := by
  rw [l2sq]
  simp [List.map_replicate, List.sum_replicate]

theorem l2sq_cons (x : ℝ) (l : List ℝ) : l2sq (x :: l) = x * x + l2sq l := by
  rw [l2sq, List.map_cons, List.sum_cons, ← l2sq]

theorem l2sq_map_div (l : List ℝ) (m : ℝ) :
    l2sq (l.map (fun v => v / m)) = l2sq l / m ^ 2 := by
  induction l with
  | nil => simp [l2sq]
  | cons v rest ih =>
    rw [List.map_cons, l2sq_cons, ih, l2sq_cons, add_div, div_mul_div_comm, pow_two]

theorem foldl_max_le_init : ∀ (l : List (List Char × ℕ)) (a : ℕ),
    a ≤ List.foldl (fun m p => max m p.2) a l := by
  intro l
  induction l with
  | nil => intro a; simp
  | cons p rest ih =>
    intro a
    rw [List.foldl_cons]
    exact le_trans (le_max_left a p.2) (ih (max a p.2))

theorem dedupKeysAux_prefix : ∀ (l acc : List (List Char)),
    acc <+: dedupKeysAux acc l := by
  intro l
  induction l with
  | nil => intro acc; rw [dedupKeysAux]
  | cons w ws ih =>
    intro acc
    rw [dedupKeysAux]
    split
    · exact ih acc
    · exact List.IsPrefix.trans (List.prefix_append acc [w]) (ih (acc ++ [w]))

/-! ## Shape of generateEnhancedEmbedding -/

theorem embedding_zero_of (text : String)
    (h : text.data = [] ∨ jsTrim text.data = [] ∨ embedWords text.data = []) :
    generateEnhancedEmbedding text = List.replicate 512 0 := by
  by_cases ho : text.data = [] ∨ jsTrim text.data = []
  · rw [generateEnhancedEmbedding, if_pos ho]
  · have hw : embedWords text.data = [] := by tauto
    rw [generateEnhancedEmbedding, if_neg ho, if_pos hw]

theorem generateEnhancedEmbedding_eq_main (text : String)
    (ho : ¬(text.data = [] ∨ jsTrim text.data = []))
    (hw : ¬embedWords text.data = []) :
    generateEnhancedEmbedding text =
      normalizeVec (semLoop (extractSemanticFeatures text.data (embedWords text.data)) 0
        (ngramLoop (generateNGrams (embedWords text.data) 2 ++
            generateNGrams (embedWords text.data) 3) 0
          (tfLoop (maxFreqOf (wordFreqPairs (embedWords text.data)))
            (wordFreqPairs (embedWords text.data)) 0 (List.replicate 512 0)))) := by
  rw [generateEnhancedEmbedding, if_neg ho, if_neg hw]

theorem embedding_length (text : String) :
    (generateEnhancedEmbedding text).length = 512 := by
  by_cases ho : text.data = [] ∨ jsTrim text.data = []
  · rw [embedding_zero_of text (by tauto)]
    simp
  · by_cases hw : embedWords text.data = []
    · rw [embedding_zero_of text (by tauto)]
      simp
    · rw [generateEnhancedEmbedding_eq_main text ho hw]
      simp only [normalizeVec, List.length_map]
      exact semLoop_length _ _ _ (ngramLoop_length _ _ _ (tfLoop_length _ _ _ _ (by simp)))

/-- When the token list is non-empty, the unnormalized vector has a strictly
positive entry at index 0 (the first distinct word adds a positive normalized
frequency there, every later write only adds nonnegative amounts, and the
semantic block only assigns indices 384-511). -/
theorem main_pipeline_l2sq_pos (text : String) (w0 : List Char) (ws : List (List Char))
    (hwords : embedWords text.data = w0 :: ws) :
    0 < l2sq (semLoop (extractSemanticFeatures text.data (embedWords text.data)) 0
      (ngramLoop (generateNGrams (embedWords text.data) 2 ++
          generateNGrams (embedWords text.data) 3) 0
        (tfLoop (maxFreqOf (wordFreqPairs (embedWords text.data)))
          (wordFreqPairs (embedWords text.data)) 0 (List.replicate 512 0)))) := by
  obtain ⟨t, ht⟩ : ∃ t, dedupKeys (w0 :: ws) = w0 :: t := by
    have h0 : dedupKeys (w0 :: ws) = dedupKeysAux [w0] ws := by
      rw [dedupKeys, dedupKeysAux]
      simp
    obtain ⟨t, ht⟩ := dedupKeysAux_prefix ws [w0]
    exact ⟨t, by rw [h0, ← ht]; rfl⟩
  have hpairs : wordFreqPairs (w0 :: ws) =
      (w0, (w0 :: ws).count w0) :: t.map (fun w => (w, (w0 :: ws).count w)) := by
    rw [wordFreqPairs, ht, List.map_cons]
  have hc0 : 0 < (w0 :: ws).count w0 :=
    List.count_pos_iff.mpr (List.mem_cons_self _ _)
  have hmfge : (w0 :: ws).count w0 ≤ maxFreqOf (wordFreqPairs (w0 :: ws)) := by
    rw [hpairs, maxFreqOf, List.foldl_cons]
    exact le_trans (le_max_right 0 _) (foldl_max_le_init _ _)
  have hmfpos : 0 < maxFreqOf (wordFreqPairs (w0 :: ws)) := lt_of_lt_of_le hc0 hmfge
  rw [hwords]
  set mf := maxFreqOf (wordFreqPairs (w0 :: ws)) with hmf
  set nf : ℝ := (((w0 :: ws).count w0 : ℕ) : ℝ) / (mf : ℝ) with hnf
  have hnfpos : 0 < nf := by
    rw [hnf]
    apply div_pos
    · exact_mod_cast hc0
    · exact_mod_cast hmfpos
  -- one step of the term-frequency loop
  have hstep : tfLoop mf (wordFreqPairs (w0 :: ws)) 0 (List.replicate 512 0) =
      tfLoop mf (t.map (fun w => (w, (w0 :: ws).count w))) 1
        (jsAddAt (jsAddAt (List.replicate 512 0) (0 % 256) nf)
          (enhancedHash w0 % 256) (nf * (1 / 2))) := by
    rw [hpairs, tfLoop, if_neg (by norm_num)]
  have hZlen : (List.replicate 512 (0 : ℝ)).length = 512 := by simp
  have hA : (jsAddAt (List.replicate 512 0) (0 % 256) nf).getD 0 0 = nf := by
    rw [Nat.zero_mod, getD_jsAddAt_self (by rw [hZlen]; norm_num)]
    rw [List.getD_eq_getElem?_getD, List.getElem?_replicate]
    norm_num
  have hAlen : (jsAddAt (List.replicate 512 0) (0 % 256) nf).length = 512 := by
    rw [jsAddAt_length (by rw [hZlen]; have := mod_lt_256 0; omega)]
    exact hZlen
  have hBlen : (jsAddAt (jsAddAt (List.replicate 512 0) (0 % 256) nf)
      (enhancedHash w0 % 256) (nf * (1 / 2))).length = 512 := by
    rw [jsAddAt_length (by rw [hAlen]; have := mod_lt_256 (enhancedHash w0); omega)]
    exact hAlen
  have hB : nf ≤ (jsAddAt (jsAddAt (List.replicate 512 0) (0 % 256) nf)
      (enhancedHash w0 % 256) (nf * (1 / 2))).getD 0 0 := by
    by_cases hcase : (0 : ℕ) = enhancedHash w0 % 256
    · rw [← hcase, getD_jsAddAt_self (by rw [hAlen]; norm_num), hA]
      have hhalf : (0 : ℝ) ≤ nf * (1 / 2) := by positivity
      linarith
    · rw [getD_jsAddAt_ne hcase, hA]
  have hC : nf ≤ (tfLoop mf (wordFreqPairs (w0 :: ws)) 0 (List.replicate 512 0)).getD 0 0 := by
    rw [hstep]
    exact le_trans hB (tfLoop_getD_le mf _ 1 _ hBlen 0)
  have htf_len : (tfLoop mf (wordFreqPairs (w0 :: ws)) 0 (List.replicate 512 0)).length = 512 :=
    tfLoop_length mf _ 0 _ hZlen
  have hD : nf ≤ (ngramLoop (generateNGrams (w0 :: ws) 2 ++ generateNGrams (w0 :: ws) 3) 0
      (tfLoop mf (wordFreqPairs (w0 :: ws)) 0 (List.replicate 512 0))).getD 0 0 :=
    le_trans hC (ngramLoop_getD_le _ 0 _ htf_len 0)
  have hng_len : (ngramLoop (generateNGrams (w0 :: ws) 2 ++ generateNGrams (w0 :: ws) 3) 0
      (tfLoop mf (wordFreqPairs (w0 :: ws)) 0 (List.replicate 512 0))).length = 512 :=
    ngramLoop_length _ 0 _ htf_len
  have hE : nf ≤ (semLoop (extractSemanticFeatures text.data (w0 :: ws)) 0
      (ngramLoop (generateNGrams (w0 :: ws) 2 ++ generateNGrams (w0 :: ws) 3) 0
        (tfLoop mf (wordFreqPairs (w0 :: ws)) 0 (List.replicate 512 0)))).getD 0 0 := by
    rw [semLoop_getD_low _ 0 _ hng_len 0 (by norm_num)]
    exact hD
  have hpos : 0 < (semLoop (extractSemanticFeatures text.data (w0 :: ws)) 0
      (ngramLoop (generateNGrams (w0 :: ws) 2 ++ generateNGrams (w0 :: ws) 3) 0
        (tfLoop mf (wordFreqPairs (w0 :: ws)) 0 (List.replicate 512 0)))).getD 0 0 :=
    lt_of_lt_of_le hnfpos hE
  calc (0 : ℝ) < _ * _ := mul_pos hpos hpos
    _ ≤ _ := getD_sq_le_l2sq _ 0

theorem embedding_norm_one (text : String)
    (hw : embedWords text.data ≠ [])
    (ho : ¬(text.data = [] ∨ jsTrim text.data = [])) :
    l2norm (generateEnhancedEmbedding text) = 1 := by
  obtain ⟨w0, ws, hwords⟩ : ∃ w0 ws, embedWords text.data = w0 :: ws := by
    rcases hcase : embedWords text.data with _ | ⟨w0, ws⟩
    · exact absurd hcase hw
    · exact ⟨w0, ws, rfl⟩
  have hS := main_pipeline_l2sq_pos text w0 ws hwords
  rw [generateEnhancedEmbedding_eq_main text ho hw]
  set e3 := semLoop (extractSemanticFeatures text.data (embedWords text.data)) 0
    (ngramLoop (generateNGrams (embedWords text.data) 2 ++
        generateNGrams (embedWords text.data) 3) 0
      (tfLoop (maxFreqOf (wordFreqPairs (embedWords text.data)))
        (wordFreqPairs (embedWords text.data)) 0 (List.replicate 512 0))) with he3
  have hSpos : 0 < l2sq e3 := hS
  have hmag : 0 < Real.sqrt (l2sq e3) := Real.sqrt_pos.mpr hSpos
  have hnv : normalizeVec e3 = e3.map (fun v => v / Real.sqrt (l2sq e3)) := by
    rw [normalizeVec]
    exact List.map_congr_left (fun v _ => if_pos hmag)
  rw [hnv, l2norm, l2sq_map_div, Real.sq_sqrt (le_of_lt hSpos),
    div_self (ne_of_gt hSpos), Real.sqrt_one]

/-! ## Claim C3 (corrected) -/

/-- Counterexample to C3 as stated: the input "ab" is non-empty and not
whitespace-only, yet the embedding is the all-zero vector with L2 norm 0,
because cleaning leaves no token of length greater than 2. -/
theorem C3_counterexample :
    "ab".data ≠ [] ∧ jsTrim "ab".data ≠ [] ∧
    l2norm (generateEnhancedEmbedding "ab") ≠ 1 := by
  refine ⟨by decide, by decide, ?_⟩
  rw [embedding_zero_of "ab" (Or.inr (Or.inr (by decide))), l2norm,
    l2sq_replicate_zero, Real.sqrt_zero]
  norm_num

/-- Claim C3 as amended: the embedding has L2 norm 1 whenever the cleaned
token list is non-empty (and the input passes the empty/whitespace guard);
in every other case — empty input, whitespace-only input, or no token of
length greater than 2 surviving the cleaning — it is the all-zero vector of
dimension 512, so a zero-magnitude accumulation never divides by zero. -/
theorem C3_embedding_norm (text : String) :
    (embedWords text.data ≠ [] ∧ ¬(text.data = [] ∨ jsTrim text.data = []) →
      l2norm (generateEnhancedEmbedding text) = 1) ∧
    (text.data = [] ∨ jsTrim text.data = [] ∨ embedWords text.data = [] →
      generateEnhancedEmbedding text = List.replicate 512 0) :=
  ⟨fun h => embedding_norm_one text h.1 h.2, embedding_zero_of text⟩

/-- Witness for the amended C3: "www" survives cleaning and has norm 1;
a whitespace-only input gives the zero vector. -/
theorem C3_witness :
    (embedWords "www".data ≠ [] ∧ ¬("www".data = [] ∨ jsTrim "www".data = [])) ∧
    l2norm (generateEnhancedEmbedding "www") = 1 ∧
    generateEnhancedEmbedding " " = List.replicate 512 0 :=
  ⟨⟨by decide, by decide⟩,
   (C3_embedding_norm "www").1 ⟨by decide, by decide⟩,
   (C3_embedding_norm " ").2 (Or.inr (Or.inl (by decide)))⟩

/-! ## Claim C10 -/

/-- Claim C10: the embedding computation is total and never writes out of
bounds: the result always has length 512; the term-frequency loop only
writes indices in [0, 256) (it preserves every index at or above 256 and
list length); the n-gram loop only writes in [256, 384); the semantic
feature loop only writes in [384, 512).  The hash-derived indices are
reduced modulo the block sizes, and `enhancedHash` is a natural number
(`Math.abs` of the 32-bit mix), so each block's index arithmetic stays in
range. -/
theorem C10_embedding_writes_in_bounds :
    (∀ text : String, (generateEnhancedEmbedding text).length = 512) ∧
    (∀ (mf : ℕ) (pairs : List (List Char × ℕ)) (dI : ℕ) (emb : List ℝ),
      emb.length = 512 →
      (tfLoop mf pairs dI emb).length = 512 ∧
      ∀ j, 256 ≤ j → (tfLoop mf pairs dI emb).getD j 0 = emb.getD j 0) ∧
    (∀ (gs : List (List Char)) (i : ℕ) (emb : List ℝ), emb.length = 512 →
      (ngramLoop gs i emb).length = 512 ∧
      ∀ j, j < 256 ∨ 384 ≤ j → (ngramLoop gs i emb).getD j 0 = emb.getD j 0) ∧
    (∀ (vs : List ℚ) (i : ℕ) (emb : List ℝ), emb.length = 512 →
      (semLoop vs i emb).length = 512 ∧
      ∀ j, j < 384 → (semLoop vs i emb).getD j 0 = emb.getD j 0) :=
  ⟨embedding_length,
   fun mf pairs dI emb h =>
     ⟨tfLoop_length mf pairs dI emb h, tfLoop_getD_high mf pairs dI emb h⟩,
   fun gs i emb h =>
     ⟨ngramLoop_length gs i emb h, ngramLoop_getD_out gs i emb h⟩,
   fun vs i emb h =>
     ⟨semLoop_length vs i emb h, semLoop_getD_low vs i emb h⟩⟩

/-- Witness for C10 at concrete inputs. -/
theorem C10_witness :
    (generateEnhancedEmbedding "neural networks").length = 512 ∧
    (tfLoop 1 [(String.data "www", 1)] 0 (List.replicate 512 0)).length = 512 ∧
    (ngramLoop [String.data "ws ws"] 0 (List.replicate 512 0)).getD 400 0 =
      (List.replicate 512 (0 : ℝ)).getD 400 0 ∧
    (semLoop [1] 0 (List.replicate 512 0)).getD 100 0 =
      (List.replicate 512 (0 : ℝ)).getD 100 0 :=
  ⟨C10_embedding_writes_in_bounds.1 "neural networks",
   (C10_embedding_writes_in_bounds.2.1 1 [(String.data "www", 1)] 0
     (List.replicate 512 0) (by simp)).1,
   (C10_embedding_writes_in_bounds.2.2.1 [String.data "ws ws"] 0
     (List.replicate 512 0) (by simp)).2 400 (Or.inr (by norm_num)),
   (C10_embedding_writes_in_bounds.2.2.2 [1] 0
     (List.replicate 512 0) (by simp)).2 100 (by norm_num)⟩

end KB
